import Mathlib

/-!
Verification of the rule-AST-to-DOT serializer in
`pkg/security/secl/ast/dot/dot.go`.

The serializer walks an already-parsed rule AST (`ast.Rule` and friends)
depth-first, writing one node declaration per visited node and one edge
declaration per parent/child pair to an `io.Writer`.

Embedding conventions:
* The `ast` package's node structs are embedded as the indexed inductive
  `Ast : Kind → Type`; each Go struct field appears in declaration order.
  Go source positions (`Pos lexer.Position`) are embedded as `Position`
  with the only field the code reads, `Offset` (a non-negative `int`,
  modelled as `Nat`).
* Go pointers whose address the code prints with `%p` are embedded as
  `Ptr α` (an address plus the pointed-to value); distinct live Go objects
  have distinct non-zero addresses, which theorems assume explicitly where
  they need it.  Optional pointers are `Option _`; mandatory struct
  pointers that the code never nil-checks nor prints (`Rule.BooleanExpression`,
  `BooleanExpression.Expression`, `Expression.Comparison`,
  `Comparison.BitOperation`, `BitOperation.Unary`, `ArrayComparison.Array`)
  are embedded as direct values.
* The dynamic `interface{}` values the traversal passes around are
  `GoNode`: a wrapped AST node, a wrapped synthetic `*node`, the typed nil
  `*ast.BitOperation` a `ScalarComparison` with nil `Next` produces, or
  `other`, any value outside the closed variant set (carrying its
  `reflect.TypeOf` rendering).
* The `io.Writer` is a `Marshaler` sink: write number `i` succeeds iff
  `sink i = true`; a successful write appends the string to the output.
* Outcomes: `ok` (success), `err` (a returned Go `error`), `panic`
  (a nil-pointer dereference crash), `diverge` (out of fuel; the fuel
  given by the public entry points always suffices, see `MarshalRule`).
* General recursion in `writeNode` is embedded with explicit fuel,
  decremented once per tree level; `fmt.Sprintf` number/pointer verbs are
  modelled by `decStr` (`%d` on a non-negative int), `intStr` (`%d` /
  `strconv.Itoa` on int) and `fmtPtr` (`%p`, `0x` plus lowercase hex).
-/

/-! ## Decimal and hexadecimal rendering (models of fmt verbs) -/

/-- Character for one digit value: `0`-`9` then lowercase `a`-`f`. -/
def digitCh (d : Nat) : Char :=
  if d < 10 then Char.ofNat (48 + d) else Char.ofNat (87 + d)

/-- Little-endian base-`b` digits of `n`, with explicit fuel (the fuel
`n` itself always suffices). -/
def radixDigitsF (b : Nat) : Nat → Nat → List Nat
  | 0, _ => []
  | _ + 1, 0 => []
  | f + 1, Nat.succ m => (m + 1) % b :: radixDigitsF b f ((m + 1) / b)

/-- `n` rendered in base `b`, most significant digit first, no leading
zeros, `0` rendered as `"0"`. -/
def radixStr (b : Nat) (n : Nat) : String :=
  if n = 0 then "0" else String.mk (((radixDigitsF b n n).reverse).map digitCh)

/-- Model of `fmt.Sprintf("%d", n)` for a non-negative Go int. -/
def decStr (n : Nat) : String := radixStr 10 n

/-- Lowercase hexadecimal rendering, as in Go pointer formatting. -/
def hexStr (n : Nat) : String := radixStr 16 n

/-- Model of `fmt.Sprintf("%p", ptr)` for a pointer at address `a`. -/
def fmtPtr (a : Nat) : String := "0x" ++ hexStr a

/-- Model of `strconv.Itoa` / `fmt.Sprintf("%d", i)` on a Go int. -/
def intStr (i : Int) : String :=
  if i < 0 then "-" ++ decStr i.natAbs else decStr i.toNat

/-! ## The rule AST (package `ast`), as used by `dot.go` -/

/-- The closed set of AST node variants. -/
inductive Kind where
  | rule
  | booleanExpression
  | expression
  | comparison
  | scalarComparison
  | arrayComparison
  | array
  | bitOperation
  | unary
  | primary
deriving DecidableEq

/-- `lexer.Position`: the code reads only `Pos.Offset`. -/
structure Position where
  offset : Nat
deriving DecidableEq

/-- A Go pointer: machine address plus pointed-to value. -/
structure Ptr (α : Type) where
  addr : Nat
  val : α
deriving DecidableEq

/-- The `ast` package structs, one constructor per struct, fields in
source order (position first). -/
inductive Ast : Kind → Type where
  | rule (pos : Position) (booleanExpression : Ast .booleanExpression) : Ast .rule
  | booleanExpression (pos : Position) (expression : Ast .expression) : Ast .booleanExpression
  | expression (pos : Position) (comparison : Ast .comparison) (op : Option (Ptr String))
      (next : Option (Ast .expression)) : Ast .expression
  | comparison (pos : Position) (bitOperation : Ast .bitOperation)
      (arrayComparison : Option (Ast .arrayComparison))
      (scalarComparison : Option (Ast .scalarComparison)) : Ast .comparison
  | scalarComparison (pos : Position) (op : Option (Ptr String))
      (next : Option (Ast .bitOperation)) : Ast .scalarComparison
  | arrayComparison (pos : Position) (op : Option (Ptr String)) (arr : Ast .array) :
      Ast .arrayComparison
  | array (pos : Position) (addr : Nat) (strings : List String) (numbers : List Int) :
      Ast .array
  | bitOperation (pos : Position) (unary : Ast .unary) (op : Option (Ptr String))
      (next : Option (Ast .bitOperation)) : Ast .bitOperation
  | unary (pos : Position) (op : Option (Ptr String)) (unary : Option (Ast .unary))
      (primary : Option (Ast .primary)) : Ast .unary
  | primary (pos : Position) (ident : Option (Ptr String)) (number : Option (Ptr Int))
      (str : Option (Ptr String)) (sub : Option (Ast .expression)) : Ast .primary

/-- `r.BooleanExpression` for `r *ast.Rule`. -/
def ruleBE : Ast .rule → Ast .booleanExpression
  | .rule _ be => be

/-- The synthetic display `node` struct of `dot.go`. -/
structure node where
  id : String
  label : String
deriving DecidableEq

/-- An `interface{}` value reaching the traversal. -/
inductive GoNode where
  | ast {k : Kind} (a : Ast k)
  | syn (n : node)
  | nilBitOperation
  | other (typeName : String)

/-! ## Errors, outcomes, the writer -/

/-- The three error kinds `dot.go` can return: a failed sink write
(wrapping the `io.WriteString` error), `unsupported node type: %s`, and
`empty ast.Primary`. -/
inductive Err where
  | writeFailure
  | unsupportedNode (typeName : String)
  | emptyPrimary
deriving DecidableEq

/-- Result of a (partial) serializer run.  `panic` is a nil-pointer
dereference crash; `diverge` is fuel exhaustion, unreachable from the
public entry point. -/
inductive Outcome (α : Type) where
  | ok (a : α)
  | err (e : Err)
  | panic
  | diverge
deriving DecidableEq

/-- Sink state: bytes written so far and the number of writes issued. -/
structure St where
  out : String
  cnt : Nat
deriving DecidableEq

/-- The `Marshaler`: its `io.Writer` is modelled by which writes succeed. -/
structure Marshaler where
  sink : Nat → Bool

/-- `d.writeString`: one `io.WriteString` call. -/
def writeString (d : Marshaler) (s : String) (st : St) : Outcome St :=
  if d.sink st.cnt then .ok ⟨st.out ++ s, st.cnt + 1⟩ else .err .writeFailure

/-! ## getID / getLabel / getChildren -/

/-- `d.getID`: position-derived identifiers for AST nodes, the stored id
for synthetic nodes, an `unsupported node type` error otherwise.  The
typed nil `*ast.BitOperation` matches its type case and crashes reading
`n.Pos`. -/
def getID : GoNode → Outcome String
  | .ast (.rule pos _) => .ok ("Rule" ++ decStr pos.offset)
  | .ast (.expression pos _ _ _) => .ok ("Expression" ++ decStr pos.offset)
  | .ast (.comparison pos _ _ _) => .ok ("Comparison" ++ decStr pos.offset)
  | .ast (.scalarComparison pos _ _) => .ok ("ScalarComparison" ++ decStr pos.offset)
  | .ast (.arrayComparison pos _ _) => .ok ("ArrayComparison" ++ decStr pos.offset)
  | .ast (.array pos _ _ _) => .ok ("Array" ++ decStr pos.offset)
  | .ast (.booleanExpression pos _) => .ok ("BooleanExpression" ++ decStr pos.offset)
  | .ast (.bitOperation pos _ _ _) => .ok ("BitOperation" ++ decStr pos.offset)
  | .ast (.unary pos _ _ _) => .ok ("Unary" ++ decStr pos.offset)
  | .ast (.primary pos _ _ _ _) => .ok ("Primary" ++ decStr pos.offset)
  | .syn n => .ok n.id
  | .nilBitOperation => .panic
  | .other tn => .err (.unsupportedNode tn)

/-- `reflect.TypeOf(n).String()` for each value the traversal can hold. -/
def typeName : GoNode → String
  | .ast (.rule _ _) => "*ast.Rule"
  | .ast (.booleanExpression _ _) => "*ast.BooleanExpression"
  | .ast (.expression _ _ _ _) => "*ast.Expression"
  | .ast (.comparison _ _ _ _) => "*ast.Comparison"
  | .ast (.scalarComparison _ _ _) => "*ast.ScalarComparison"
  | .ast (.arrayComparison _ _ _) => "*ast.ArrayComparison"
  | .ast (.array _ _ _ _) => "*ast.Array"
  | .ast (.bitOperation _ _ _ _) => "*ast.BitOperation"
  | .ast (.unary _ _ _ _) => "*ast.Unary"
  | .ast (.primary _ _ _ _ _) => "*ast.Primary"
  | .syn _ => "*dot.node"
  | .nilBitOperation => "*ast.BitOperation"
  | .other tn => tn

/-- Split a character list at the first occurrence of `sep`, if any. -/
def splitFirst (sep : Char) : List Char → Option (List Char × List Char)
  | [] => none
  | c :: rest =>
    if c = sep then some ([], rest)
    else (splitFirst sep rest).map (fun q => (c :: q.1, q.2))

/-- `strings.SplitN(s, sep, 2)` for a one-character separator: at most
one split, at the first occurrence; the remainder keeps later
occurrences. -/
def splitN2 (s : String) (sep : Char) : List String :=
  match splitFirst sep s.data with
  | none => [s]
  | some (a, b) => [String.mk a, String.mk b]

/-- `split[len(split)-1]`: last element of a non-empty list of strings. -/
def lastD : List String → String → String
  | [], d => d
  | [x], _ => x
  | _ :: xs, d => lastD xs d

/-- `d.getLabel`: stored label for a synthetic node, otherwise the last
component of the reflected type name split at the first `.`. -/
def getLabel : GoNode → String
  | .syn n => n.label
  | g => lastD (splitN2 (typeName g) '.') (typeName g)

/-- `strings.Join(strings, ",")` used for `Array.Strings`. -/
def joinStrings : List String → String
  | [] => ""
  | x :: xs => xs.foldl (fun s y => s ++ "," ++ y) x

/-- The number-joining loop of the `*ast.Array` case: first number bare,
every further number preceded by `", "`. -/
def joinNumbers : List Int → String
  | [] => ""
  | x :: xs => xs.foldl (fun s y => s ++ ", " ++ intStr y) (intStr x)

/-- The synthetic operator child `newNode(Sprintf("Op%p", op), Sprintf("Op\\n%s", *op))`. -/
def opNode (p : Ptr String) : GoNode :=
  .syn ⟨"Op" ++ fmtPtr p.addr, "Op\\n" ++ p.val⟩

/-- `d.getChildren`: the child-enumeration table.  Option fields that the
Go code checks with `!= nil` appear as expanded patterns; the unchecked
dereferences `*n.Op` of `ArrayComparison`/`ScalarComparison` crash on a
nil operator, and a nil `ScalarComparison.Next` is passed along as a typed
nil child. -/
def getChildren : GoNode → Outcome (List GoNode)
  | .ast (.rule _ be) => .ok [.ast be]
  | .ast (.expression _ c none none) => .ok [.ast c]
  | .ast (.expression _ c (some p) none) => .ok [.ast c, opNode p]
  | .ast (.expression _ c none (some nx)) => .ok [.ast c, .ast nx]
  | .ast (.expression _ c (some p) (some nx)) => .ok [.ast c, opNode p, .ast nx]
  | .ast (.booleanExpression _ e) => .ok [.ast e]
  | .ast (.comparison _ bo none none) => .ok [.ast bo]
  | .ast (.comparison _ bo (some ac) none) => .ok [.ast bo, .ast ac]
  | .ast (.comparison _ bo none (some sc)) => .ok [.ast bo, .ast sc]
  | .ast (.comparison _ bo (some ac) (some sc)) => .ok [.ast bo, .ast ac, .ast sc]
  | .ast (.arrayComparison _ none _) => .panic
  | .ast (.arrayComparison _ (some p) arr) => .ok [opNode p, .ast arr]
  | .ast (.scalarComparison _ none _) => .panic
  | .ast (.scalarComparison _ (some p) (some bo)) => .ok [opNode p, .ast bo]
  | .ast (.scalarComparison _ (some p) none) => .ok [opNode p, .nilBitOperation]
  | .ast (.array _ addr [] nums) => .ok [.syn ⟨"Array" ++ fmtPtr addr, joinNumbers nums⟩]
  | .ast (.array _ addr (s :: ss) _) =>
      .ok [.syn ⟨"Array" ++ fmtPtr addr, joinStrings (s :: ss)⟩]
  | .ast (.bitOperation _ u none none) => .ok [.ast u]
  | .ast (.bitOperation _ u (some p) none) => .ok [.ast u, opNode p]
  | .ast (.bitOperation _ u none (some nx)) => .ok [.ast u, .ast nx]
  | .ast (.bitOperation _ u (some p) (some nx)) => .ok [.ast u, opNode p, .ast nx]
  | .ast (.unary _ none none none) => .ok []
  | .ast (.unary _ (some p) none none) => .ok [opNode p]
  | .ast (.unary _ none (some u) none) => .ok [.ast u]
  | .ast (.unary _ (some p) (some u) none) => .ok [opNode p, .ast u]
  | .ast (.unary _ none none (some pr)) => .ok [.ast pr]
  | .ast (.unary _ (some p) none (some pr)) => .ok [opNode p, .ast pr]
  | .ast (.unary _ none (some u) (some pr)) => .ok [.ast u, .ast pr]
  | .ast (.unary _ (some p) (some u) (some pr)) => .ok [opNode p, .ast u, .ast pr]
  | .ast (.primary _ (some p) _ _ _) =>
      .ok [.syn ⟨"Ident" ++ fmtPtr p.addr, "Ident\\n" ++ p.val⟩]
  | .ast (.primary _ none (some p) _ _) =>
      .ok [.syn ⟨"Number" ++ fmtPtr p.addr, "Number\\n" ++ intStr p.val⟩]
  | .ast (.primary _ none none (some p) _) =>
      .ok [.syn ⟨"String" ++ fmtPtr p.addr, "String\\n" ++ p.val⟩]
  | .ast (.primary _ none none none (some e)) => .ok [.ast e]
  | .ast (.primary _ none none none none) => .err .emptyPrimary
  | .syn _ => .ok []
  | .nilBitOperation => .panic
  | .other tn => .err (.unsupportedNode tn)

/-! ## The traversal -/

/-- `d.writeEdge(parent, child)`: both ids, then one write. -/
def writeEdge (d : Marshaler) (parent child : GoNode) (st : St) : Outcome St :=
  match getID parent with
  | .ok pid =>
    match getID child with
    | .ok cid => writeString d (pid ++ " -> " ++ cid ++ "\n") st
    | .err e => .err e
    | .panic => .panic
    | .diverge => .diverge
  | .err e => .err e
  | .panic => .panic
  | .diverge => .diverge

/-- The child loop of `d.writeNode`: for each child, write the edge then
the child's whole subtree, aborting on the first non-ok outcome.  `wn` is
the recursive `writeNode` at the next fuel level. -/
def writeChildren (wn : GoNode → St → Outcome St) (d : Marshaler) (p : GoNode) :
    List GoNode → St → Outcome St
  | [], st => .ok st
  | c :: rest, st =>
    match writeEdge d p c st with
    | .ok st1 =>
      match wn c st1 with
      | .ok st2 => writeChildren wn d p rest st2
      | r => r
    | .err e => .err e
    | .panic => .panic
    | .diverge => .diverge

/-- `d.writeNode`, with fuel: write the declaration
`<id>[label="<label>"]`, then every child edge and subtree. -/
def writeNodeF : Nat → Marshaler → GoNode → St → Outcome St
  | 0, _, _, _ => .diverge
  | f + 1, d, n, st =>
    match getID n with
    | .ok id =>
      match writeString d (id ++ "[label=\"" ++ getLabel n ++ "\"]\n") st with
      | .ok st1 =>
        match getChildren n with
        | .ok children => writeChildren (writeNodeF f d) d n children st1
        | .err e => .err e
        | .panic => .panic
        | .diverge => .diverge
      | r => r
    | .err e => .err e
    | .panic => .panic
    | .diverge => .diverge

/-- Tree size: an upper bound on the traversal depth, used as fuel. -/
def astSize : {k : Kind} → Ast k → Nat
  | _, .rule _ be => 1 + astSize be
  | _, .booleanExpression _ e => 1 + astSize e
  | _, .expression _ c none none => 1 + astSize c
  | _, .expression _ c (some _) none => 1 + astSize c
  | _, .expression _ c none (some nx) => 1 + astSize c + astSize nx
  | _, .expression _ c (some _) (some nx) => 1 + astSize c + astSize nx
  | _, .comparison _ bo none none => 1 + astSize bo
  | _, .comparison _ bo (some ac) none => 1 + astSize bo + astSize ac
  | _, .comparison _ bo none (some sc) => 1 + astSize bo + astSize sc
  | _, .comparison _ bo (some ac) (some sc) => 1 + astSize bo + astSize ac + astSize sc
  | _, .scalarComparison _ _ none => 1
  | _, .scalarComparison _ _ (some bo) => 1 + astSize bo
  | _, .arrayComparison _ _ arr => 1 + astSize arr
  | _, .array _ _ _ _ => 1
  | _, .bitOperation _ u _ none => 1 + astSize u
  | _, .bitOperation _ u _ (some nx) => 1 + astSize u + astSize nx
  | _, .unary _ _ none none => 1
  | _, .unary _ _ (some u) none => 1 + astSize u
  | _, .unary _ _ none (some pr) => 1 + astSize pr
  | _, .unary _ _ (some u) (some pr) => 1 + astSize u + astSize pr
  | _, .primary _ _ _ _ none => 1
  | _, .primary _ _ _ _ (some e) => 1 + astSize e

/-- Fuel bound for a traversal rooted at `n`. -/
def nodeSize : GoNode → Nat
  | .ast a => 1 + astSize a
  | _ => 1

/-- `d.MarshalRule`: header, the tree rooted at the rule's
`BooleanExpression`, footer.  The fuel `nodeSize` always suffices. -/
def MarshalRule (d : Marshaler) (r : Ast .rule) (st : St) : Outcome St :=
  match writeString d "digraph \x7b\n" st with
  | .ok st1 =>
    match writeNodeF (nodeSize (.ast (ruleBE r))) d (.ast (ruleBE r)) st1 with
    | .ok st2 => writeString d "\x7d\n" st2
    | r2 => r2
  | r2 => r2

/-! ## Well-formedness predicates over the AST -/

/-- Every `ArrayComparison`/`ScalarComparison` reachable by the traversal
carries its operator, and every `ScalarComparison` its right-hand
`BitOperation`: exactly the nil-dereference safety precondition. -/
def opsOk : {k : Kind} → Ast k → Bool
  | _, .rule _ be => opsOk be
  | _, .booleanExpression _ e => opsOk e
  | _, .expression _ c _ none => opsOk c
  | _, .expression _ c _ (some nx) => opsOk c && opsOk nx
  | _, .comparison _ bo none none => opsOk bo
  | _, .comparison _ bo (some ac) none => opsOk bo && opsOk ac
  | _, .comparison _ bo none (some sc) => opsOk bo && opsOk sc
  | _, .comparison _ bo (some ac) (some sc) => opsOk bo && opsOk ac && opsOk sc
  | _, .scalarComparison _ none _ => false
  | _, .scalarComparison _ (some _) none => false
  | _, .scalarComparison _ (some _) (some bo) => opsOk bo
  | _, .arrayComparison _ none _ => false
  | _, .arrayComparison _ (some _) arr => opsOk arr
  | _, .array _ _ _ _ => true
  | _, .bitOperation _ u _ none => opsOk u
  | _, .bitOperation _ u _ (some nx) => opsOk u && opsOk nx
  | _, .unary _ _ none none => true
  | _, .unary _ _ (some u) none => opsOk u
  | _, .unary _ _ none (some pr) => opsOk pr
  | _, .unary _ _ (some u) (some pr) => opsOk u && opsOk pr
  | _, .primary _ (some _) _ _ _ => true
  | _, .primary _ none (some _) _ _ => true
  | _, .primary _ none none (some _) _ => true
  | _, .primary _ none none none (some e) => opsOk e
  | _, .primary _ none none none none => true

/-- Every `Primary` reachable by the traversal has at least one of its
four alternatives populated. -/
def primariesOk : {k : Kind} → Ast k → Bool
  | _, .rule _ be => primariesOk be
  | _, .booleanExpression _ e => primariesOk e
  | _, .expression _ c _ none => primariesOk c
  | _, .expression _ c _ (some nx) => primariesOk c && primariesOk nx
  | _, .comparison _ bo none none => primariesOk bo
  | _, .comparison _ bo (some ac) none => primariesOk bo && primariesOk ac
  | _, .comparison _ bo none (some sc) => primariesOk bo && primariesOk sc
  | _, .comparison _ bo (some ac) (some sc) => primariesOk bo && primariesOk ac && primariesOk sc
  | _, .scalarComparison _ _ none => true
  | _, .scalarComparison _ _ (some bo) => primariesOk bo
  | _, .arrayComparison _ _ arr => primariesOk arr
  | _, .array _ _ _ _ => true
  | _, .bitOperation _ u _ none => primariesOk u
  | _, .bitOperation _ u _ (some nx) => primariesOk u && primariesOk nx
  | _, .unary _ _ none none => true
  | _, .unary _ _ (some u) none => primariesOk u
  | _, .unary _ _ none (some pr) => primariesOk pr
  | _, .unary _ _ (some u) (some pr) => primariesOk u && primariesOk pr
  | _, .primary _ (some _) _ _ _ => true
  | _, .primary _ none (some _) _ _ => true
  | _, .primary _ none none (some _) _ => true
  | _, .primary _ none none none (some e) => primariesOk e
  | _, .primary _ none none none none => false

/-- `opsOk` lifted to traversal values: synthetic nodes are safe, the
typed nil and out-of-set values are not part of a well-formed tree. -/
def opsOkG : GoNode → Bool
  | .ast a => opsOk a
  | .syn _ => true
  | .nilBitOperation => false
  | .other _ => false

/-- `primariesOk` lifted to traversal values. -/
def primariesOkG : GoNode → Bool
  | .ast a => primariesOk a
  | .syn _ => true
  | .nilBitOperation => true
  | .other _ => true

/-! ## Identities declared by the traversal -/

/-- Identity of a declared graph node: an original AST node is
`(variant-kind name, offset)`, a synthetic node is
`(synthetic-kind name, pointer address)`. -/
abbrev NodeKey : Type := (String × Nat) ⊕ (String × Nat)

/-- The identifier string `getID` assigns to a node with the given key. -/
def encodeKey : NodeKey → String
  | .inl (k, off) => k ++ decStr off
  | .inr (p, a) => p ++ fmtPtr a

/-- Keys of all nodes the child-enumeration table reaches from an AST
node, in traversal (pre-)order. -/
def keysOf : {k : Kind} → Ast k → List NodeKey
  | _, .rule pos be => .inl ("Rule", pos.offset) :: keysOf be
  | _, .booleanExpression pos e => .inl ("BooleanExpression", pos.offset) :: keysOf e
  | _, .expression pos c none none => .inl ("Expression", pos.offset) :: keysOf c
  | _, .expression pos c (some p) none =>
      .inl ("Expression", pos.offset) :: (keysOf c ++ [.inr ("Op", p.addr)])
  | _, .expression pos c none (some nx) =>
      .inl ("Expression", pos.offset) :: (keysOf c ++ keysOf nx)
  | _, .expression pos c (some p) (some nx) =>
      .inl ("Expression", pos.offset) :: (keysOf c ++ [.inr ("Op", p.addr)] ++ keysOf nx)
  | _, .comparison pos bo none none => .inl ("Comparison", pos.offset) :: keysOf bo
  | _, .comparison pos bo (some ac) none =>
      .inl ("Comparison", pos.offset) :: (keysOf bo ++ keysOf ac)
  | _, .comparison pos bo none (some sc) =>
      .inl ("Comparison", pos.offset) :: (keysOf bo ++ keysOf sc)
  | _, .comparison pos bo (some ac) (some sc) =>
      .inl ("Comparison", pos.offset) :: (keysOf bo ++ keysOf ac ++ keysOf sc)
  | _, .scalarComparison pos op none =>
      .inl ("ScalarComparison", pos.offset)
        :: (match op with | some p => [.inr ("Op", p.addr)] | none => [])
  | _, .scalarComparison pos op (some bo) =>
      .inl ("ScalarComparison", pos.offset)
        :: ((match op with | some p => [.inr ("Op", p.addr)] | none => []) ++ keysOf bo)
  | _, .arrayComparison pos op arr =>
      .inl ("ArrayComparison", pos.offset)
        :: ((match op with | some p => [.inr ("Op", p.addr)] | none => []) ++ keysOf arr)
  | _, .array pos addr _ _ => [.inl ("Array", pos.offset), .inr ("Array", addr)]
  | _, .bitOperation pos u none none => .inl ("BitOperation", pos.offset) :: keysOf u
  | _, .bitOperation pos u (some p) none =>
      .inl ("BitOperation", pos.offset) :: (keysOf u ++ [.inr ("Op", p.addr)])
  | _, .bitOperation pos u none (some nx) =>
      .inl ("BitOperation", pos.offset) :: (keysOf u ++ keysOf nx)
  | _, .bitOperation pos u (some p) (some nx) =>
      .inl ("BitOperation", pos.offset) :: (keysOf u ++ [.inr ("Op", p.addr)] ++ keysOf nx)
  | _, .unary pos none none none => [.inl ("Unary", pos.offset)]
  | _, .unary pos (some p) none none => [.inl ("Unary", pos.offset), .inr ("Op", p.addr)]
  | _, .unary pos none (some u) none => .inl ("Unary", pos.offset) :: keysOf u
  | _, .unary pos (some p) (some u) none =>
      .inl ("Unary", pos.offset) :: (.inr ("Op", p.addr) :: keysOf u)
  | _, .unary pos none none (some pr) => .inl ("Unary", pos.offset) :: keysOf pr
  | _, .unary pos (some p) none (some pr) =>
      .inl ("Unary", pos.offset) :: (.inr ("Op", p.addr) :: keysOf pr)
  | _, .unary pos none (some u) (some pr) =>
      .inl ("Unary", pos.offset) :: (keysOf u ++ keysOf pr)
  | _, .unary pos (some p) (some u) (some pr) =>
      .inl ("Unary", pos.offset) :: (.inr ("Op", p.addr) :: (keysOf u ++ keysOf pr))
  | _, .primary pos (some p) _ _ _ =>
      [.inl ("Primary", pos.offset), .inr ("Ident", p.addr)]
  | _, .primary pos none (some p) _ _ =>
      [.inl ("Primary", pos.offset), .inr ("Number", p.addr)]
  | _, .primary pos none none (some p) _ =>
      [.inl ("Primary", pos.offset), .inr ("String", p.addr)]
  | _, .primary pos none none none (some e) => .inl ("Primary", pos.offset) :: keysOf e
  | _, .primary pos none none none none => [.inl ("Primary", pos.offset)]

/-- The identifiers of the node declarations the traversal emits, in
order, via `getID` and `getChildren` (fuelled like `writeNodeF`). -/
def idsF : Nat → GoNode → List String
  | 0, _ => []
  | f + 1, n =>
    (match getID n with
      | .ok i => [i]
      | _ => []) ++
    (match getChildren n with
      | .ok cs => cs.flatMap (idsF f)
      | _ => [])

/-! ## Document metrics -/

/-- Split a character list at every occurrence of `sep`. -/
def splitAll (sep : Char) : List Char → List (List Char)
  | [] => [[]]
  | c :: rest =>
    let r := splitAll sep rest
    if c = sep then [] :: r
    else
      match r with
      | [] => [[c]]
      | h :: t => (c :: h) :: t

/-- Does the line end in the two characters `"]` (a node declaration)? -/
def endsQuoteBracket (l : List Char) : Bool :=
  match l.reverse with
  | ']' :: '\"' :: _ => true
  | _ => false

/-- Does the line start with the four characters ` -> `? -/
def startsArrow : List Char → Bool
  | ' ' :: '-' :: '>' :: ' ' :: _ => true
  | _ => false

/-- Does the line contain ` -> ` (an edge declaration)? -/
def hasArrow : List Char → Bool
  | [] => false
  | c :: rest => startsArrow (c :: rest) || hasArrow rest

/-- Number of node-declaration lines of a document. -/
def declLineCount (s : String) : Nat :=
  ((splitAll '\n' s.data).filter endsQuoteBracket).length

/-- Number of edge-declaration lines of a document. -/
def edgeLineCount (s : String) : Nat :=
  ((splitAll '\n' s.data).filter hasArrow).length

/-! ## Concrete inputs used by the claims -/

/-- The parsed AST of the rule text `a == 1`, shaped as the parser shapes
it: offsets `a`=0, `==`=2, `1`=5; the pointer cells live at addresses
0xa1, 0xa2, 0xa3. -/
def ruleAEq1 : Ast .rule :=
  .rule ⟨0⟩ (.booleanExpression ⟨0⟩ (.expression ⟨0⟩
    (.comparison ⟨0⟩
      (.bitOperation ⟨0⟩ (.unary ⟨0⟩ none none
        (some (.primary ⟨0⟩ (some ⟨161, "a"⟩) none none none))) none none)
      none
      (some (.scalarComparison ⟨2⟩ (some ⟨162, "=="⟩)
        (some (.bitOperation ⟨5⟩ (.unary ⟨5⟩ none none
          (some (.primary ⟨5⟩ none (some ⟨163, 1⟩) none none))) none none)))))
    none none))

/-- The document `MarshalRule` emits for `ruleAEq1` on an all-accepting
sink. -/
def docAEq1 : String :=
  "digraph \x7b\n" ++
  "BooleanExpression0[label=\"BooleanExpression\"]\n" ++
  "BooleanExpression0 -> Expression0\n" ++
  "Expression0[label=\"Expression\"]\n" ++
  "Expression0 -> Comparison0\n" ++
  "Comparison0[label=\"Comparison\"]\n" ++
  "Comparison0 -> BitOperation0\n" ++
  "BitOperation0[label=\"BitOperation\"]\n" ++
  "BitOperation0 -> Unary0\n" ++
  "Unary0[label=\"Unary\"]\n" ++
  "Unary0 -> Primary0\n" ++
  "Primary0[label=\"Primary\"]\n" ++
  "Primary0 -> Ident0xa1\n" ++
  "Ident0xa1[label=\"Ident\\na\"]\n" ++
  "Comparison0 -> ScalarComparison2\n" ++
  "ScalarComparison2[label=\"ScalarComparison\"]\n" ++
  "ScalarComparison2 -> Op0xa2\n" ++
  "Op0xa2[label=\"Op\\n==\"]\n" ++
  "ScalarComparison2 -> BitOperation5\n" ++
  "BitOperation5[label=\"BitOperation\"]\n" ++
  "BitOperation5 -> Unary5\n" ++
  "Unary5[label=\"Unary\"]\n" ++
  "Unary5 -> Primary5\n" ++
  "Primary5[label=\"Primary\"]\n" ++
  "Primary5 -> Number0xa3\n" ++
  "Number0xa3[label=\"Number\\n1\"]\n" ++
  "\x7d\n"

/-- A rule whose only `Primary` has none of its four alternatives
populated. -/
def ruleEmptyPrimary : Ast .rule :=
  .rule ⟨0⟩ (.booleanExpression ⟨0⟩ (.expression ⟨0⟩
    (.comparison ⟨0⟩
      (.bitOperation ⟨0⟩ (.unary ⟨0⟩ none none
        (some (.primary ⟨0⟩ none none none none))) none none)
      none none)
    none none))

/-- A rule whose `ScalarComparison` has a nil operator pointer. -/
def ruleNilScalarOp : Ast .rule :=
  .rule ⟨0⟩ (.booleanExpression ⟨0⟩ (.expression ⟨0⟩
    (.comparison ⟨0⟩
      (.bitOperation ⟨0⟩ (.unary ⟨0⟩ none none
        (some (.primary ⟨0⟩ (some ⟨161, "a"⟩) none none none))) none none)
      none
      (some (.scalarComparison ⟨2⟩ none
        (some (.bitOperation ⟨5⟩ (.unary ⟨5⟩ none none
          (some (.primary ⟨5⟩ none (some ⟨163, 1⟩) none none))) none none)))))
    none none))

/-- A rule whose `ScalarComparison` has a nil right-hand `BitOperation`. -/
def ruleNilScalarNext : Ast .rule :=
  .rule ⟨0⟩ (.booleanExpression ⟨0⟩ (.expression ⟨0⟩
    (.comparison ⟨0⟩
      (.bitOperation ⟨0⟩ (.unary ⟨0⟩ none none
        (some (.primary ⟨0⟩ (some ⟨161, "a"⟩) none none none))) none none)
      none
      (some (.scalarComparison ⟨2⟩ (some ⟨162, "=="⟩) none)))
    none none))

/-- A rule whose `ArrayComparison` has a nil operator pointer. -/
def ruleNilArrayOp : Ast .rule :=
  .rule ⟨0⟩ (.booleanExpression ⟨0⟩ (.expression ⟨0⟩
    (.comparison ⟨0⟩
      (.bitOperation ⟨0⟩ (.unary ⟨0⟩ none none
        (some (.primary ⟨0⟩ (some ⟨161, "a"⟩) none none none))) none none)
      (some (.arrayComparison ⟨2⟩ none (.array ⟨5⟩ 164 ["x", "y"] [])))
      none)
    none none))

/-- The all-accepting sink. -/
def sinkAll : Marshaler := ⟨fun _ => true⟩

/-! ## Decoding identifiers (for uniqueness reasoning) -/

/-- ASCII letter test. -/
def isAlphaCh (c : Char) : Bool :=
  ('a' ≤ c && c ≤ 'z') || ('A' ≤ c && c ≤ 'Z')

/-- ASCII decimal digit test. -/
def isDigitCh (c : Char) : Bool := '0' ≤ c && c ≤ '9'

/-- Lowercase hexadecimal digit test. -/
def isHexCh (c : Char) : Bool := isDigitCh c || ('a' ≤ c && c ≤ 'f')

/-- Value of a decimal digit character. -/
def decValCh (c : Char) : Nat := c.toNat - 48

/-- Value of a lowercase hexadecimal digit character. -/
def hexValCh (c : Char) : Nat := if c.toNat ≤ 57 then c.toNat - 48 else c.toNat - 87

/-- Accumulate a base-`b` numeral left to right. -/
def foldVal (b : Nat) (vc : Char → Nat) (l : List Char) : Nat :=
  l.foldl (fun a c => a * b + vc c) 0

/-- Does the character list start with `0x`? -/
def startsHex (l : List Char) : Bool :=
  match l with
  | a :: b :: _ => a == '0' && b == 'x'
  | _ => false

/-- Parse an identifier back into a node key: a maximal letter prefix,
then either `0x` plus hex digits (a synthetic node) or decimal digits (an
original node).  Inverts `encodeKey` on the identifiers the serializer
builds; used to prove them pairwise distinct. -/
def keyOfId (id : String) : Option NodeKey :=
  let kp := id.data.takeWhile isAlphaCh
  let rest := id.data.drop kp.length
  if startsHex rest then
    if !(rest.drop 2).isEmpty && (rest.drop 2).all isHexCh then
      some (.inr (String.mk kp, foldVal 16 hexValCh (rest.drop 2)))
    else none
  else
    if !rest.isEmpty && rest.all isDigitCh then
      some (.inl (String.mk kp, foldVal 10 decValCh rest))
    else none

/-- The name component of a key is all letters. -/
def keyAlpha : NodeKey → Bool
  | .inl (k, _) => k.data.all isAlphaCh
  | .inr (p, _) => p.data.all isAlphaCh

/-- Original-node component of a key. -/
def keyProjOrig : NodeKey → Option (String × Nat)
  | .inl q => some q
  | .inr _ => none

/-- Pointer address of a synthetic-node key. -/
def keyProjAddr : NodeKey → Option Nat
  | .inr (_, a) => some a
  | .inl _ => none

/-- The (kind, offset) pairs of the original nodes reachable in `r`. -/
def ruleOrigPairs (r : Ast .rule) : List (String × Nat) :=
  (keysOf (ruleBE r)).filterMap keyProjOrig

/-- The pointer addresses behind the synthetic nodes reachable in `r`. -/
def ruleSynAddrs (r : Ast .rule) : List Nat :=
  (keysOf (ruleBE r)).filterMap keyProjAddr

/-- The identifiers of all node declarations `MarshalRule` emits for `r`. -/
def ruleIds (r : Ast .rule) : List String :=
  idsF (nodeSize (.ast (ruleBE r))) (.ast (ruleBE r))

/-! ## Basic structural lemmas -/

theorem astSize_pos : ∀ {k : Kind} (a : Ast k), 0 < astSize a := by
  intro k a
  cases a with
  | expression pos c op nx => cases op <;> cases nx <;> simp [astSize]
  | comparison pos bo ac sc => cases ac <;> cases sc <;> simp [astSize]
  | scalarComparison pos op nx => cases nx <;> simp [astSize]
  | bitOperation pos u op nx => cases nx <;> simp [astSize]
  | unary pos op u p => cases u <;> cases p <;> simp [astSize]
  | primary pos id num str sub => cases sub <;> simp [astSize]
  | _ => simp [astSize]

theorem getID_ast_isOk : ∀ {k : Kind} (a : Ast k), ∃ j, getID (GoNode.ast a) = .ok j := by
  intro k a
  cases a <;> exact ⟨_, rfl⟩

theorem one_lt_nodeSize_ast : ∀ {k : Kind} (a : Ast k), 1 < nodeSize (GoNode.ast a) := by
  intro k a
  have h := astSize_pos a
  simp only [nodeSize]
  omega

theorem children_facts (n : GoNode) (h1 : opsOkG n = true) :
    (∃ i, getID n = .ok i) ∧
    ((getChildren n = .err .emptyPrimary ∧ primariesOkG n = false) ∨
      (∃ cs, getChildren n = .ok cs ∧
        (∀ c ∈ cs, nodeSize c < nodeSize n ∧ opsOkG c = true ∧ ∃ j, getID c = .ok j) ∧
        (primariesOkG n = true ↔ ∀ c ∈ cs, primariesOkG c = true))) := by
  cases n with
  | syn nd => exact ⟨⟨_, rfl⟩, .inr ⟨[], rfl, by simp, by simp [primariesOkG]⟩⟩
  | nilBitOperation => simp [opsOkG] at h1
  | other tn => simp [opsOkG] at h1
  | ast a =>
    cases a with
    | scalarComparison pos op nx =>
      rcases op with _ | p
      · simp [opsOkG, opsOk] at h1
      rcases nx with _ | bo
      · simp [opsOkG, opsOk] at h1
      refine ⟨getID_ast_isOk _, .inr ⟨_, rfl, ?_, ?_⟩⟩
      · intro c2 hc
        fin_cases hc <;> refine ⟨?_, ?_, ?_⟩ <;>
          first
            | exact one_lt_nodeSize_ast _
            | (simp only [nodeSize, astSize, opNode]; omega)
            | exact ⟨_, rfl⟩
            | exact getID_ast_isOk _
            | (simp [opNode, opsOkG]; done)
            | (simp_all [opsOkG, opsOk, Bool.and_eq_true]; done)
      · simp [primariesOkG, primariesOk, opNode, List.forall_mem_cons]
    | arrayComparison pos op arr =>
      rcases op with _ | p
      · simp [opsOkG, opsOk] at h1
      refine ⟨getID_ast_isOk _, .inr ⟨_, rfl, ?_, ?_⟩⟩
      · intro c2 hc
        fin_cases hc <;> refine ⟨?_, ?_, ?_⟩ <;>
          first
            | exact one_lt_nodeSize_ast _
            | (simp only [nodeSize, astSize, opNode]; omega)
            | exact ⟨_, rfl⟩
            | exact getID_ast_isOk _
            | (simp [opNode, opsOkG]; done)
            | (simp_all [opsOkG, opsOk, Bool.and_eq_true]; done)
      · simp [primariesOkG, primariesOk, opNode, List.forall_mem_cons]
    | primary pos id num str sub =>
      rcases id with _ | p1
      case some =>
        refine ⟨getID_ast_isOk _, .inr ⟨_, rfl, ?_, ?_⟩⟩
        · intro c2 hc
          fin_cases hc
          exact ⟨one_lt_nodeSize_ast _, by simp [opsOkG], ⟨_, rfl⟩⟩
        · simp [primariesOkG, primariesOk, List.forall_mem_cons]
      rcases num with _ | p2
      case some =>
        refine ⟨getID_ast_isOk _, .inr ⟨_, rfl, ?_, ?_⟩⟩
        · intro c2 hc
          fin_cases hc
          exact ⟨one_lt_nodeSize_ast _, by simp [opsOkG], ⟨_, rfl⟩⟩
        · simp [primariesOkG, primariesOk, List.forall_mem_cons]
      rcases str with _ | p3
      case some =>
        refine ⟨getID_ast_isOk _, .inr ⟨_, rfl, ?_, ?_⟩⟩
        · intro c2 hc
          fin_cases hc
          exact ⟨one_lt_nodeSize_ast _, by simp [opsOkG], ⟨_, rfl⟩⟩
        · simp [primariesOkG, primariesOk, List.forall_mem_cons]
      rcases sub with _ | e
      · exact ⟨getID_ast_isOk _, .inl ⟨rfl, by simp [primariesOkG, primariesOk]⟩⟩
      refine ⟨getID_ast_isOk _, .inr ⟨_, rfl, ?_, ?_⟩⟩
      · intro c2 hc
        fin_cases hc
        exact ⟨by simp only [nodeSize, astSize]; omega,
          by simp_all [opsOkG, opsOk], getID_ast_isOk _⟩
      · simp [primariesOkG, primariesOk, List.forall_mem_cons]
    | rule pos be =>
      refine ⟨getID_ast_isOk _, .inr ⟨_, rfl, ?_, ?_⟩⟩
      · intro c2 hc
        fin_cases hc
        exact ⟨by simp only [nodeSize, astSize]; omega,
          by simp_all [opsOkG, opsOk], getID_ast_isOk _⟩
      · simp [primariesOkG, primariesOk, List.forall_mem_cons]
    | booleanExpression pos e =>
      refine ⟨getID_ast_isOk _, .inr ⟨_, rfl, ?_, ?_⟩⟩
      · intro c2 hc
        fin_cases hc
        exact ⟨by simp only [nodeSize, astSize]; omega,
          by simp_all [opsOkG, opsOk], getID_ast_isOk _⟩
      · simp [primariesOkG, primariesOk, List.forall_mem_cons]
    | array pos addr strs nums =>
      rcases strs with _ | ⟨s, ss⟩ <;>
        (refine ⟨getID_ast_isOk _, .inr ⟨_, rfl, ?_, ?_⟩⟩ <;>
          [ (intro c2 hc; fin_cases hc;
              exact ⟨one_lt_nodeSize_ast _, by simp [opsOkG], ⟨_, rfl⟩⟩);
            (simp [primariesOkG, primariesOk, List.forall_mem_cons]) ])
    | expression pos c op nx =>
      rcases op with _ | p <;> rcases nx with _ | nx2 <;>
        refine ⟨getID_ast_isOk _, .inr ⟨_, rfl, ?_, ?_⟩⟩ <;>
          [ skip; skip; skip; skip; skip; skip; skip; skip ] <;>
        first
          | (intro c2 hc; fin_cases hc <;>
              refine ⟨?_, ?_, ?_⟩ <;>
                first
                  | exact one_lt_nodeSize_ast _
                  | (simp only [nodeSize, astSize, opNode]; omega)
                  | exact ⟨_, rfl⟩
                  | exact getID_ast_isOk _
                  | (simp [opNode, opsOkG]; done)
                  | (simp_all [opsOkG, opsOk, Bool.and_eq_true]; done))
          | (simp [primariesOkG, primariesOk, opNode, List.forall_mem_cons, Bool.and_eq_true] <;> tauto)
    | comparison pos bo ac sc =>
      rcases ac with _ | ac2 <;> rcases sc with _ | sc2 <;>
        refine ⟨getID_ast_isOk _, .inr ⟨_, rfl, ?_, ?_⟩⟩ <;>
        first
          | (intro c2 hc; fin_cases hc <;>
              refine ⟨?_, ?_, ?_⟩ <;>
                first
                  | exact one_lt_nodeSize_ast _
                  | (simp only [nodeSize, astSize, opNode]; omega)
                  | exact ⟨_, rfl⟩
                  | exact getID_ast_isOk _
                  | (simp [opNode, opsOkG]; done)
                  | (simp_all [opsOkG, opsOk, Bool.and_eq_true]; done))
          | (simp [primariesOkG, primariesOk, opNode, List.forall_mem_cons, Bool.and_eq_true] <;> tauto)
    | bitOperation pos u op nx =>
      rcases op with _ | p <;> rcases nx with _ | nx2 <;>
        refine ⟨getID_ast_isOk _, .inr ⟨_, rfl, ?_, ?_⟩⟩ <;>
        first
          | (intro c2 hc; fin_cases hc <;>
              refine ⟨?_, ?_, ?_⟩ <;>
                first
                  | exact one_lt_nodeSize_ast _
                  | (simp only [nodeSize, astSize, opNode]; omega)
                  | exact ⟨_, rfl⟩
                  | exact getID_ast_isOk _
                  | (simp [opNode, opsOkG]; done)
                  | (simp_all [opsOkG, opsOk, Bool.and_eq_true]; done))
          | (simp [primariesOkG, primariesOk, opNode, List.forall_mem_cons, Bool.and_eq_true] <;> tauto)
    | unary pos op u p =>
      rcases op with _ | p2 <;> rcases u with _ | u2 <;> rcases p with _ | pr <;>
        refine ⟨getID_ast_isOk _, .inr ⟨_, rfl, ?_, ?_⟩⟩ <;>
        first
          | (intro c2 hc; fin_cases hc <;>
              refine ⟨?_, ?_, ?_⟩ <;>
                first
                  | exact one_lt_nodeSize_ast _
                  | (simp only [nodeSize, astSize, opNode]; omega)
                  | exact ⟨_, rfl⟩
                  | exact getID_ast_isOk _
                  | (simp [opNode, opsOkG]; done)
                  | (simp_all [opsOkG, opsOk, Bool.and_eq_true]; done))
          | (simp [primariesOkG, primariesOk, opNode, List.forall_mem_cons, Bool.and_eq_true] <;> tauto)

/-! ## Write-level helper lemmas -/

theorem nodeSize_pos (n : GoNode) : 0 < nodeSize n := by
  cases n <;> simp [nodeSize]

theorem str_append_empty (s : String) : s ++ "" = s := by
  apply String.ext
  simp [String.data_append]

theorem str_append_assoc (a b c : String) : a ++ b ++ c = a ++ (b ++ c) := by
  apply String.ext
  simp [String.data_append]

theorem writeString_allOk (d : Marshaler) (hs : ∀ i, d.sink i = true) (s : String) (st : St) :
    writeString d s st = .ok ⟨st.out ++ s, st.cnt + 1⟩ := by
  simp [writeString, hs]

theorem writeString_cases (d : Marshaler) (s : String) (st : St) :
    writeString d s st = .ok ⟨st.out ++ s, st.cnt + 1⟩ ∨ writeString d s st = .err .writeFailure := by
  by_cases h : d.sink st.cnt = true
  · exact .inl (by simp [writeString, h])
  · exact .inr (by simp [writeString, h])

theorem writeEdge_ok (d : Marshaler) (hs : ∀ i, d.sink i = true) (p c : GoNode)
    (pid cid : String) (hp : getID p = .ok pid) (hc : getID c = .ok cid) (st : St) :
    writeEdge d p c st = .ok ⟨st.out ++ (pid ++ " -> " ++ cid ++ "\n"), st.cnt + 1⟩ := by
  simp [writeEdge, hp, hc, writeString_allOk d hs]

theorem writeChildren_ok (d : Marshaler) (hs : ∀ i, d.sink i = true)
    (wn : GoNode → St → Outcome St) (p : GoNode) (pid : String) (hp : getID p = .ok pid) :
    ∀ (cs : List GoNode),
      (∀ c ∈ cs, (∃ j, getID c = .ok j) ∧ ∀ st2, ∃ s c2, wn c st2 = .ok ⟨st2.out ++ s, c2⟩) →
      ∀ st, ∃ s c2, writeChildren wn d p cs st = .ok ⟨st.out ++ s, c2⟩ := by
  intro cs
  induction cs with
  | nil =>
    intro _ st
    exact ⟨"", st.cnt, by simp [writeChildren, str_append_empty]⟩
  | cons c rest ih =>
    intro hmem st
    obtain ⟨⟨cid, hcid⟩, hwn⟩ := hmem c (List.mem_cons_self c rest)
    obtain ⟨s1, c1, hw⟩ := hwn ⟨st.out ++ (pid ++ " -> " ++ cid ++ "\n"), st.cnt + 1⟩
    obtain ⟨s2, c2, hrest⟩ := ih (fun c2 h2 => hmem c2 (List.mem_cons_of_mem c h2))
      ⟨st.out ++ (pid ++ " -> " ++ cid ++ "\n") ++ s1, c1⟩
    refine ⟨(pid ++ " -> " ++ cid ++ "\n") ++ s1 ++ s2, c2, ?_⟩
    have hedge := writeEdge_ok d hs p c pid cid hp hcid st
    simp only [writeChildren, hedge, hw, hrest]
    simp [str_append_assoc]

theorem writeChildren_err (d : Marshaler) (hs : ∀ i, d.sink i = true)
    (wn : GoNode → St → Outcome St) (p : GoNode) (pid : String) (hp : getID p = .ok pid) :
    ∀ (pre : List GoNode) (bad : GoNode) (post : List GoNode),
      (∀ c ∈ pre, (∃ j, getID c = .ok j) ∧ ∀ st2, ∃ s c2, wn c st2 = .ok ⟨st2.out ++ s, c2⟩) →
      (∃ j, getID bad = .ok j) →
      (∀ st2, wn bad st2 = .err .emptyPrimary) →
      ∀ st, writeChildren wn d p (pre ++ bad :: post) st = .err .emptyPrimary := by
  intro pre
  induction pre with
  | nil =>
    intro bad post _ ⟨bid, hbid⟩ hbad st
    have hedge := writeEdge_ok d hs p bad pid bid hp hbid st
    simp only [List.nil_append, writeChildren, hedge, hbad]
  | cons c rest ih =>
    intro bad post hmem hbid hbad st
    obtain ⟨⟨cid, hcid⟩, hwn⟩ := hmem c (List.mem_cons_self c rest)
    obtain ⟨s1, c1, hw⟩ := hwn ⟨st.out ++ (pid ++ " -> " ++ cid ++ "\n"), st.cnt + 1⟩
    have hedge := writeEdge_ok d hs p c pid cid hp hcid st
    simp only [List.cons_append, writeChildren, hedge, hw]
    exact ih bad post (fun c2 h2 => hmem c2 (List.mem_cons_of_mem c h2)) hbid hbad _

theorem exists_first_false {α : Type} (P : α → Bool) :
    ∀ (l : List α), ¬(∀ c ∈ l, P c = true) →
      ∃ pre bad post, l = pre ++ bad :: post ∧ (∀ c ∈ pre, P c = true) ∧ P bad = false := by
  intro l
  induction l with
  | nil => intro h; exact absurd (by simp) h
  | cons c t ih =>
    intro h
    by_cases hc : P c = true
    · have ht : ¬(∀ x ∈ t, P x = true) := by
        intro hall
        exact h (by
          intro x hx
          rcases List.mem_cons.mp hx with rfl | hx2
          · exact hc
          · exact hall x hx2)
      obtain ⟨pre, bad, post, heq, hpre, hbad⟩ := ih ht
      refine ⟨c :: pre, bad, post, by rw [heq, List.cons_append], ?_, hbad⟩
      intro x hx
      rcases List.mem_cons.mp hx with rfl | hx2
      · exact hc
      · exact hpre x hx2
    · exact ⟨[], c, t, by simp, by simp, by simpa using hc⟩

/-! ## Master lemmas about the traversal -/

theorem writeNode_spec (d : Marshaler) (hs : ∀ i, d.sink i = true) :
    ∀ (f : Nat) (n : GoNode) (st : St), nodeSize n ≤ f → opsOkG n = true →
      (primariesOkG n = true → ∃ s c2, writeNodeF f d n st = .ok ⟨st.out ++ s, c2⟩) ∧
      (primariesOkG n = false → writeNodeF f d n st = .err .emptyPrimary) := by
  intro f
  induction f with
  | zero =>
    intro n st hf _
    have := nodeSize_pos n
    omega
  | succ f ih =>
    intro n st hf hops
    obtain ⟨⟨nid, hnid⟩, hcf⟩ := children_facts n hops
    rcases hcf with ⟨herr, hpf⟩ | ⟨cs, hcs, hmem, hiff⟩
    · refine ⟨fun hpt => ?_, fun _ => ?_⟩
      · rw [hpt] at hpf; cases hpf
      · show writeNodeF (f + 1) d n st = .err .emptyPrimary
        simp only [writeNodeF, hnid, writeString_allOk d hs, herr]
    · have hkids : ∀ c ∈ cs, nodeSize c ≤ f := by
        intro c hc
        have := (hmem c hc).1
        omega
      constructor
      · intro hpt
        have hall := hiff.mp hpt
        have hok : ∀ c ∈ cs, (∃ j, getID c = .ok j) ∧
            ∀ st2, ∃ s c2, writeNodeF f d c st2 = .ok ⟨st2.out ++ s, c2⟩ := by
          intro c hc
          refine ⟨(hmem c hc).2.2, fun st2 => ?_⟩
          exact (ih c st2 (hkids c hc) (hmem c hc).2.1).1 (hall c hc)
        obtain ⟨s, c2, hloop⟩ := writeChildren_ok d hs (writeNodeF f d) n nid hnid cs hok
          ⟨st.out ++ (nid ++ "[label=\"" ++ getLabel n ++ "\"]\n"), st.cnt + 1⟩
        refine ⟨(nid ++ "[label=\"" ++ getLabel n ++ "\"]\n") ++ s, c2, ?_⟩
        simp only [writeNodeF, hnid, writeString_allOk d hs, hcs, hloop]
        simp [str_append_assoc]
      · intro hpf
        have hnall : ¬(∀ c ∈ cs, primariesOkG c = true) := by
          intro hall
          rw [hiff.mpr hall] at hpf
          cases hpf
        obtain ⟨pre, bad, post, heq, hpre, hbad⟩ := exists_first_false primariesOkG cs hnall
        have hbadmem : bad ∈ cs := by rw [heq]; exact List.mem_append_right pre (List.mem_cons_self bad post)
        have hok : ∀ c ∈ pre, (∃ j, getID c = .ok j) ∧
            ∀ st2, ∃ s c2, writeNodeF f d c st2 = .ok ⟨st2.out ++ s, c2⟩ := by
          intro c hc
          have hcmem : c ∈ cs := by rw [heq]; exact List.mem_append_left _ hc
          refine ⟨(hmem c hcmem).2.2, fun st2 => ?_⟩
          exact (ih c st2 (hkids c hcmem) (hmem c hcmem).2.1).1 (hpre c hc)
        have hbadrun : ∀ st2, writeNodeF f d bad st2 = .err .emptyPrimary := by
          intro st2
          exact (ih bad st2 (hkids bad hbadmem) (hmem bad hbadmem).2.1).2 hbad
        have hloop := writeChildren_err d hs (writeNodeF f d) n nid hnid pre bad post hok
          (hmem bad hbadmem).2.2 hbadrun
          ⟨st.out ++ (nid ++ "[label=\"" ++ getLabel n ++ "\"]\n"), st.cnt + 1⟩
        simp only [writeNodeF, hnid, writeString_allOk d hs, hcs, heq, hloop]

theorem writeChildren_no_panic (d : Marshaler) (wn : GoNode → St → Outcome St) (p : GoNode)
    (pid : String) (hp : getID p = .ok pid) :
    ∀ (cs : List GoNode),
      (∀ c ∈ cs, (∃ j, getID c = .ok j) ∧ ∀ st2, wn c st2 ≠ .panic) →
      ∀ st, writeChildren wn d p cs st ≠ .panic := by
  intro cs
  induction cs with
  | nil => intro _ st; simp [writeChildren]
  | cons c rest ih =>
    intro hmem st
    obtain ⟨⟨cid, hcid⟩, hwn⟩ := hmem c (List.mem_cons_self c rest)
    rcases writeString_cases d (pid ++ " -> " ++ cid ++ "\n") st with hws | hws <;>
      simp only [writeChildren, writeEdge, hp, hcid, hws]
    · cases hres : wn c ⟨st.out ++ (pid ++ " -> " ++ cid ++ "\n"), st.cnt + 1⟩ with
      | ok st2 =>
        simp only [hres]
        exact ih (fun c2 h2 => hmem c2 (List.mem_cons_of_mem c h2)) st2
      | err e => simp [hres]
      | panic => exact absurd hres (hwn _)
      | diverge => simp [hres]
    · simp

theorem writeNode_no_panic (d : Marshaler) :
    ∀ (f : Nat) (n : GoNode) (st : St), opsOkG n = true → writeNodeF f d n st ≠ .panic := by
  intro f
  induction f with
  | zero => intro n st _; simp [writeNodeF]
  | succ f ih =>
    intro n st hops
    obtain ⟨⟨nid, hnid⟩, hcf⟩ := children_facts n hops
    rcases writeString_cases d (nid ++ "[label=\"" ++ getLabel n ++ "\"]\n") st with hws | hws <;>
      simp only [writeNodeF, hnid, hws]
    · rcases hcf with ⟨herr, _⟩ | ⟨cs, hcs, hmem, _⟩
      · simp [herr]
      · simp only [hcs]
        exact writeChildren_no_panic d (writeNodeF f d) n nid hnid cs
          (fun c hc => ⟨(hmem c hc).2.2, fun st2 => ih c st2 (hmem c hc).2.1⟩) _
    · simp

theorem writeEdge_sink_eq (d1 d2 : Marshaler) (h1 : ∀ i, d1.sink i = true)
    (h2 : ∀ i, d2.sink i = true) (p c : GoNode) (st : St) :
    writeEdge d1 p c st = writeEdge d2 p c st := by
  unfold writeEdge
  cases getID p <;> cases getID c <;>
    simp [writeString_allOk d1 h1, writeString_allOk d2 h2]

theorem writeChildren_sink_eq (d1 d2 : Marshaler) (h1 : ∀ i, d1.sink i = true)
    (h2 : ∀ i, d2.sink i = true) (wn1 wn2 : GoNode → St → Outcome St)
    (hwn : ∀ c st2, wn1 c st2 = wn2 c st2) (p : GoNode) :
    ∀ (cs : List GoNode) (st : St), writeChildren wn1 d1 p cs st = writeChildren wn2 d2 p cs st := by
  intro cs
  induction cs with
  | nil => intro st; rfl
  | cons c rest ih =>
    intro st
    simp only [writeChildren]
    rw [writeEdge_sink_eq d1 d2 h1 h2 p c st]
    cases he : writeEdge d2 p c st with
    | ok st1 =>
      simp only [he]
      rw [hwn c st1]
      cases hw : wn2 c st1 <;> simp only [hw]
      exact ih _
    | err e => simp only [he]
    | panic => simp only [he]
    | diverge => simp only [he]

theorem writeNodeF_sink_eq (d1 d2 : Marshaler) (h1 : ∀ i, d1.sink i = true)
    (h2 : ∀ i, d2.sink i = true) :
    ∀ (f : Nat) (n : GoNode) (st : St), writeNodeF f d1 n st = writeNodeF f d2 n st := by
  intro f
  induction f with
  | zero => intro n st; rfl
  | succ f ih =>
    intro n st
    simp only [writeNodeF]
    cases hg : getID n <;> simp only [hg]
    rw [writeString_allOk d1 h1, writeString_allOk d2 h2]
    cases hc : getChildren n <;> simp only [hc]
    exact writeChildren_sink_eq d1 d2 h1 h2 _ _ (fun c st2 => ih c st2) n _ _

/-! ## MarshalRule-level corollaries -/

theorem opsOk_ruleBE (r : Ast .rule) (h : opsOk r = true) : opsOk (ruleBE r) = true := by
  cases r with
  | rule pos be => simpa [opsOk, ruleBE] using h

theorem primariesOk_ruleBE (r : Ast .rule) (h : primariesOk r = true) :
    primariesOk (ruleBE r) = true := by
  cases r with
  | rule pos be => simpa [primariesOk, ruleBE] using h

theorem primariesOk_ruleBE_false (r : Ast .rule) (h : primariesOk r = false) :
    primariesOk (ruleBE r) = false := by
  cases r with
  | rule pos be => simpa [primariesOk, ruleBE] using h

theorem MarshalRule_ok (d : Marshaler) (hs : ∀ i, d.sink i = true) (r : Ast .rule) (st : St)
    (hops : opsOk r = true) (hprims : primariesOk r = true) :
    ∃ body c2, MarshalRule d r st =
      .ok ⟨st.out ++ "digraph \x7b\n" ++ body ++ "\x7d\n", c2⟩ := by
  have hspec := (writeNode_spec d hs (nodeSize (.ast (ruleBE r))) (.ast (ruleBE r))
      ⟨st.out ++ "digraph \x7b\n", st.cnt + 1⟩ (le_refl _)
      (by simpa [opsOkG] using opsOk_ruleBE r hops)).1
    (by simpa [primariesOkG] using primariesOk_ruleBE r hprims)
  obtain ⟨s, c2, hrun⟩ := hspec
  refine ⟨s, c2 + 1, ?_⟩
  simp only [MarshalRule, writeString_allOk d hs, hrun]

theorem MarshalRule_emptyPrimary (d : Marshaler) (hs : ∀ i, d.sink i = true) (r : Ast .rule)
    (st : St) (hops : opsOk r = true) (hprims : primariesOk r = false) :
    MarshalRule d r st = .err .emptyPrimary := by
  have hspec := (writeNode_spec d hs (nodeSize (.ast (ruleBE r))) (.ast (ruleBE r))
      ⟨st.out ++ "digraph \x7b\n", st.cnt + 1⟩ (le_refl _)
      (by simpa [opsOkG] using opsOk_ruleBE r hops)).2
    (by simpa [primariesOkG] using primariesOk_ruleBE_false r hprims)
  simp only [MarshalRule, writeString_allOk d hs, hspec]

theorem MarshalRule_no_panic (d : Marshaler) (r : Ast .rule) (st : St)
    (hops : opsOk r = true) : MarshalRule d r st ≠ .panic := by
  unfold MarshalRule
  rcases writeString_cases d "digraph \x7b\n" st with hws | hws <;> simp only [hws]
  · cases hrun : writeNodeF (nodeSize (.ast (ruleBE r))) d (.ast (ruleBE r))
        ⟨st.out ++ "digraph \x7b\n", st.cnt + 1⟩ with
    | ok st2 =>
      rcases writeString_cases d "\x7d\n" st2 with hws2 | hws2 <;> simp [hws2]
    | err e => simp
    | panic =>
      exact absurd hrun (writeNode_no_panic d _ _ _ (by simpa [opsOkG] using opsOk_ruleBE r hops))
    | diverge => simp
  · simp

theorem MarshalRule_sink_eq (s1 s2 : Nat → Bool) (h1 : ∀ i, s1 i = true)
    (h2 : ∀ i, s2 i = true) (r : Ast .rule) (st : St) :
    MarshalRule ⟨s1⟩ r st = MarshalRule ⟨s2⟩ r st := by
  unfold MarshalRule
  rw [writeString_allOk ⟨s1⟩ h1, writeString_allOk ⟨s2⟩ h2]
  dsimp only
  rw [writeNodeF_sink_eq ⟨s1⟩ ⟨s2⟩ h1 h2]
  cases hrun : writeNodeF (nodeSize (.ast (ruleBE r))) ⟨s2⟩ (.ast (ruleBE r))
      ⟨st.out ++ "digraph \x7b\n", st.cnt + 1⟩ <;> simp only [hrun]
  rw [writeString_allOk ⟨s1⟩ h1, writeString_allOk ⟨s2⟩ h2]

/-! ## Digit-rendering lemmas -/

theorem radixDigitsF_eq_digits (b : Nat) (hb : 1 < b) :
    ∀ (f n : Nat), n ≤ f → radixDigitsF b f n = Nat.digits b n := by
  intro f
  induction f with
  | zero =>
    intro n hn
    interval_cases n
    simp [radixDigitsF]
  | succ f ih =>
    intro n hn
    cases n with
    | zero => simp [radixDigitsF]
    | succ m =>
      have hdiv : (m + 1) / b < m + 1 := Nat.div_lt_self (Nat.succ_pos m) hb
      rw [radixDigitsF, Nat.digits_def' hb (Nat.succ_pos m), ih ((m + 1) / b) (by omega)]

theorem digitCh_inj_facts :
    (∀ d, d < 10 → isDigitCh (digitCh d) = true) ∧
    (∀ d, d < 16 → isHexCh (digitCh d) = true) ∧
    (∀ d, d < 16 → isAlphaCh (digitCh d) = false → d < 10) ∧
    (∀ d, d < 10 → isAlphaCh (digitCh d) = false) ∧
    (∀ d, d < 10 → decValCh (digitCh d) = d) ∧
    (∀ d, d < 16 → hexValCh (digitCh d) = d) := by
  refine ⟨?_, ?_, ?_, ?_, ?_, ?_⟩ <;> decide

theorem radixStr_chars (b n : Nat) (hb : 1 < b) :
    ∀ c ∈ (radixStr b n).data, ∃ d, d < b ∧ c = digitCh d := by
  intro c hc
  unfold radixStr at hc
  by_cases hn : n = 0
  · subst hn
    simp at hc
    subst hc
    exact ⟨0, by omega, by decide⟩
  · rw [if_neg hn] at hc
    simp only [String.mk] at hc
    rw [radixDigitsF_eq_digits b hb n n (le_refl n)] at hc
    rcases List.mem_map.mp hc with ⟨d, hd, rfl⟩
    exact ⟨d, Nat.digits_lt_base hb (List.mem_reverse.mp hd), rfl⟩

theorem radixStr_ne_nil (b n : Nat) (hb : 1 < b) : (radixStr b n).data ≠ [] := by
  unfold radixStr
  by_cases hn : n = 0
  · subst hn; simp
  · rw [if_neg hn]
    simp only [String.mk]
    rw [radixDigitsF_eq_digits b hb n n (le_refl n)]
    simp [Nat.digits_ne_nil_iff_ne_zero.mpr hn]

theorem foldr_ofDigits (b : Nat) (l : List Nat) :
    List.foldr (fun d a => a * b + d) 0 l = Nat.ofDigits b l := by
  induction l with
  | nil => simp [Nat.ofDigits]
  | cons d t ih => simp [Nat.ofDigits_cons, ih]; ring

theorem foldVal_render (b : Nat) (vc : Char → Nat) (hvc : ∀ d, d < b → vc (digitCh d) = d) :
    ∀ (l : List Nat), (∀ d ∈ l, d < b) → foldVal b vc (l.reverse.map digitCh) = Nat.ofDigits b l := by
  intro l hl
  unfold foldVal
  rw [List.map_reverse, List.foldl_reverse, List.foldr_map]
  have : ∀ (l2 : List Nat), (∀ d ∈ l2, d < b) →
      List.foldr (fun d a => a * b + vc (digitCh d)) 0 l2 =
        List.foldr (fun d a => a * b + d) 0 l2 := by
    intro l2
    induction l2 with
    | nil => intro _; rfl
    | cons d t ih =>
      intro h
      simp only [List.foldr_cons]
      rw [ih (fun x hx => h x (List.mem_cons_of_mem d hx)), hvc d (h d (List.mem_cons_self d t))]
  rw [this l hl, foldr_ofDigits]

theorem foldVal_radixStr (b : Nat) (hb : 1 < b) (vc : Char → Nat)
    (hvc : ∀ d, d < b → vc (digitCh d) = d) (n : Nat) :
    foldVal b vc (radixStr b n).data = n := by
  unfold radixStr
  by_cases hn : n = 0
  · subst hn
    simp only [if_pos rfl]
    show foldVal b vc ['0'] = 0
    have h0 : ('0' : Char) = digitCh 0 := by decide
    rw [h0]
    simp [foldVal, hvc 0 (by omega)]
  · rw [if_neg hn]
    simp only [String.mk]
    rw [radixDigitsF_eq_digits b hb n n (le_refl n)]
    rw [foldVal_render b vc hvc (Nat.digits b n) (fun d hd => Nat.digits_lt_base hb hd)]
    exact Nat.ofDigits_digits b n

/-! ## The decoder inverts the identifier encoding -/

theorem takeWhile_append_all (p : Char → Bool) :
    ∀ (l1 l2 : List Char), (∀ c ∈ l1, p c = true) →
      List.takeWhile p (l1 ++ l2) = l1 ++ List.takeWhile p l2 := by
  intro l1
  induction l1 with
  | nil => intro l2 _; simp
  | cons c t ih =>
    intro l2 h
    rw [List.cons_append, List.takeWhile_cons_of_pos (h c (List.mem_cons_self c t)),
      ih l2 (fun x hx => h x (List.mem_cons_of_mem c hx)), List.cons_append]

theorem string_mk_data (s : String) : String.mk s.data = s := rfl

theorem startsHex_of_digits (l : List Char) (h : ∀ c ∈ l, isDigitCh c = true) :
    startsHex l = false := by
  cases l with
  | nil => rfl
  | cons a t =>
    cases t with
    | nil => rfl
    | cons b t2 =>
      have hb : isDigitCh b = true := h b (List.mem_cons_of_mem a (List.mem_cons_self b t2))
      show (a == '0' && b == 'x') = false
      cases hbe : b == 'x' with
      | false => simp
      | true =>
        rw [beq_iff_eq] at hbe
        subst hbe
        exact absurd hb (by decide)
  
theorem decStr_digits (n : Nat) : ∀ c ∈ (decStr n).data, isDigitCh c = true := by
  intro c hc
  obtain ⟨d, hd, rfl⟩ := radixStr_chars 10 n (by norm_num) c hc
  exact digitCh_inj_facts.1 d hd

theorem decStr_not_alpha (n : Nat) : ∀ c ∈ (decStr n).data, isAlphaCh c = false := by
  intro c hc
  obtain ⟨d, hd, rfl⟩ := radixStr_chars 10 n (by norm_num) c hc
  exact digitCh_inj_facts.2.2.2.1 d hd

theorem hexStr_hex (n : Nat) : ∀ c ∈ (hexStr n).data, isHexCh c = true := by
  intro c hc
  obtain ⟨d, hd, rfl⟩ := radixStr_chars 16 n (by norm_num) c hc
  exact digitCh_inj_facts.2.1 d hd

theorem takeWhile_not_head {p : Char → Bool} (l : List Char)
    (h : ∀ c ∈ l, p c = false) : List.takeWhile p l = [] := by
  cases l with
  | nil => rfl
  | cons c t => exact List.takeWhile_cons_of_neg (by simp [h c (List.mem_cons_self c t)])

theorem keyOfId_encodeKey (q : NodeKey) (hq : keyAlpha q = true) :
    keyOfId (encodeKey q) = some q := by
  rcases q with ⟨k, off⟩ | ⟨p, a⟩
  · -- original node: k ++ decStr off
    have hk : ∀ c ∈ k.data, isAlphaCh c = true := by
      simpa [keyAlpha, List.all_eq_true] using hq
    simp only [keyOfId, encodeKey]
    have hdata : (k ++ decStr off).data = k.data ++ (decStr off).data := by
      simp [String.data_append]
    rw [hdata]
    rw [takeWhile_append_all isAlphaCh k.data (decStr off).data hk,
      takeWhile_not_head (decStr off).data (decStr_not_alpha off), List.append_nil]
    rw [List.drop_left k.data (decStr off).data]
    rw [startsHex_of_digits (decStr off).data (decStr_digits off)]
    simp only [if_false, Bool.false_eq_true]
    have hne : (decStr off).data.isEmpty = false := by
      have := radixStr_ne_nil 10 off (by norm_num)
      cases hd : (decStr off).data with
      | nil => exact absurd hd this
      | cons a t => rfl
    rw [hne]
    have hall : (decStr off).data.all isDigitCh = true :=
      List.all_eq_true.mpr (decStr_digits off)
    rw [hall]
    simp only [Bool.not_false, Bool.and_self, if_true]
    rw [string_mk_data]
    have : foldVal 10 decValCh (decStr off).data = off :=
      foldVal_radixStr 10 (by norm_num) decValCh digitCh_inj_facts.2.2.2.2.1 off
    rw [this]
  · -- synthetic node: p ++ fmtPtr a, fmtPtr a = "0x" ++ hexStr a
    have hp : ∀ c ∈ p.data, isAlphaCh c = true := by
      simpa [keyAlpha, List.all_eq_true] using hq
    simp only [keyOfId, encodeKey, fmtPtr]
    have hdata : (p ++ ("0x" ++ hexStr a)).data = p.data ++ ('0' :: 'x' :: (hexStr a).data) := by
      simp only [String.data_append]
      rfl
    rw [hdata]
    rw [takeWhile_append_all isAlphaCh p.data ('0' :: 'x' :: (hexStr a).data) hp]
    rw [List.takeWhile_cons_of_neg (by decide), List.append_nil]
    rw [List.drop_left p.data ('0' :: 'x' :: (hexStr a).data)]
    have hsh : startsHex ('0' :: 'x' :: (hexStr a).data) = true := rfl
    rw [hsh]
    simp only [if_true, List.drop_succ_cons, List.drop_zero]
    have hne : (hexStr a).data.isEmpty = false := by
      have := radixStr_ne_nil 16 a (by norm_num)
      cases hd : (hexStr a).data with
      | nil => exact absurd hd this
      | cons x t => rfl
    rw [hne]
    have hall : (hexStr a).data.all isHexCh = true := List.all_eq_true.mpr (hexStr_hex a)
    rw [hall]
    simp only [Bool.not_false, Bool.and_self, if_true]
    rw [string_mk_data]
    have : foldVal 16 hexValCh (hexStr a).data = a :=
      foldVal_radixStr 16 (by norm_num) hexValCh digitCh_inj_facts.2.2.2.2.2 a
    rw [this]

theorem encodeKey_inj (q1 q2 : NodeKey) (h1 : keyAlpha q1 = true) (h2 : keyAlpha q2 = true)
    (heq : encodeKey q1 = encodeKey q2) : q1 = q2 := by
  have := congrArg keyOfId heq
  rw [keyOfId_encodeKey q1 h1, keyOfId_encodeKey q2 h2] at this
  exact Option.some.inj this

/-! ## Key lists with distinct projections have no duplicates -/

theorem nodup_keys (l : List NodeKey)
    (h1 : (l.filterMap keyProjOrig).Nodup) (h2 : (l.filterMap keyProjAddr).Nodup) :
    l.Nodup := by
  induction l with
  | nil => exact List.nodup_nil
  | cons q t ih =>
    rw [List.filterMap_cons] at h1 h2
    rcases q with o | ⟨pfx, addr⟩
    · simp only [keyProjOrig, keyProjAddr] at h1 h2
      rcases List.nodup_cons.mp h1 with ⟨ho, h1t⟩
      refine List.nodup_cons.mpr ⟨?_, ih h1t h2⟩
      intro hmem
      exact ho (List.mem_filterMap.mpr ⟨.inl o, hmem, rfl⟩)
    · simp only [keyProjOrig, keyProjAddr] at h1 h2
      rcases List.nodup_cons.mp h2 with ⟨ha, h2t⟩
      refine List.nodup_cons.mpr ⟨?_, ih h1 h2t⟩
      intro hmem
      exact ha (List.mem_filterMap.mpr ⟨.inr (pfx, addr), hmem, rfl⟩)

/-! ## Every key the table reaches has a letters-only name -/

theorem keyAlpha_inl_of (s : String) (n : Nat) (h : s.data.all isAlphaCh = true) :
    keyAlpha (Sum.inl (s, n)) = true := h

theorem keyAlpha_inr_of (s : String) (n : Nat) (h : s.data.all isAlphaCh = true) :
    keyAlpha (Sum.inr (s, n)) = true := h

theorem keysOf_alpha : ∀ (m : Nat) {k : Kind} (a : Ast k), astSize a ≤ m →
    ∀ q ∈ keysOf a, keyAlpha q = true := by
  intro m
  induction m with
  | zero =>
    intro k a ha
    have := astSize_pos a
    omega
  | succ m ih =>
    intro k a ha q hq
    cases a with
    | rule pos be =>
      simp only [keysOf, List.mem_cons] at hq
      rcases hq with rfl | hq
      · first
          | exact keyAlpha_inl_of _ _ (by decide)
          | exact keyAlpha_inr_of _ _ (by decide)
      · exact ih be (by simp only [astSize] at ha; omega) q hq
    | booleanExpression pos e =>
      simp only [keysOf, List.mem_cons] at hq
      rcases hq with rfl | hq
      · first
          | exact keyAlpha_inl_of _ _ (by decide)
          | exact keyAlpha_inr_of _ _ (by decide)
      · exact ih e (by simp only [astSize] at ha; omega) q hq
    | expression pos c op nx =>
      rcases op with _ | p <;> rcases nx with _ | nx2 <;>
        simp only [keysOf, List.mem_cons, List.mem_append, List.mem_singleton,
          List.not_mem_nil, or_false] at hq
      · rcases hq with rfl | hq
        · first
            | exact keyAlpha_inl_of _ _ (by decide)
            | exact keyAlpha_inr_of _ _ (by decide)
        · exact ih _ (by simp only [astSize] at ha; omega) q hq
      · rcases hq with rfl | hq | hq
        · first
            | exact keyAlpha_inl_of _ _ (by decide)
            | exact keyAlpha_inr_of _ _ (by decide)
        · exact ih _ (by simp only [astSize] at ha; omega) q hq
        · exact ih _ (by simp only [astSize] at ha; omega) q hq
      · rcases hq with rfl | hq | rfl
        · first
            | exact keyAlpha_inl_of _ _ (by decide)
            | exact keyAlpha_inr_of _ _ (by decide)
        · exact ih _ (by simp only [astSize] at ha; omega) q hq
        · first
            | exact keyAlpha_inl_of _ _ (by decide)
            | exact keyAlpha_inr_of _ _ (by decide)
      · rcases hq with rfl | (hq | rfl) | hq
        · first
            | exact keyAlpha_inl_of _ _ (by decide)
            | exact keyAlpha_inr_of _ _ (by decide)
        · exact ih _ (by simp only [astSize] at ha; omega) q hq
        · first
            | exact keyAlpha_inl_of _ _ (by decide)
            | exact keyAlpha_inr_of _ _ (by decide)
        · exact ih _ (by simp only [astSize] at ha; omega) q hq
    | comparison pos bo ac sc =>
      rcases ac with _ | ac2 <;> rcases sc with _ | sc2 <;>
        simp only [keysOf, List.mem_cons, List.mem_append, List.mem_singleton,
          List.not_mem_nil, or_false] at hq
      · rcases hq with rfl | hq
        · first
            | exact keyAlpha_inl_of _ _ (by decide)
            | exact keyAlpha_inr_of _ _ (by decide)
        · exact ih _ (by simp only [astSize] at ha; omega) q hq
      · rcases hq with rfl | hq | hq
        · first
            | exact keyAlpha_inl_of _ _ (by decide)
            | exact keyAlpha_inr_of _ _ (by decide)
        · exact ih _ (by simp only [astSize] at ha; omega) q hq
        · exact ih _ (by simp only [astSize] at ha; omega) q hq
      · rcases hq with rfl | hq | hq
        · first
            | exact keyAlpha_inl_of _ _ (by decide)
            | exact keyAlpha_inr_of _ _ (by decide)
        · exact ih _ (by simp only [astSize] at ha; omega) q hq
        · exact ih _ (by simp only [astSize] at ha; omega) q hq
      · rcases hq with rfl | (hq | hq) | hq
        · first
            | exact keyAlpha_inl_of _ _ (by decide)
            | exact keyAlpha_inr_of _ _ (by decide)
        · exact ih _ (by simp only [astSize] at ha; omega) q hq
        · exact ih _ (by simp only [astSize] at ha; omega) q hq
        · exact ih _ (by simp only [astSize] at ha; omega) q hq
    | scalarComparison pos op nx =>
      rcases op with _ | p <;> rcases nx with _ | bo <;>
        simp only [keysOf, List.mem_cons, List.mem_append, List.mem_singleton,
          List.not_mem_nil, or_false, List.nil_append] at hq
      · subst hq
        exact keyAlpha_inl_of _ _ (by decide)
      · rcases hq with rfl | hq
        · first
            | exact keyAlpha_inl_of _ _ (by decide)
            | exact keyAlpha_inr_of _ _ (by decide)
        · exact ih _ (by simp only [astSize] at ha; omega) q hq
      · rcases hq with rfl | rfl
        · first
            | exact keyAlpha_inl_of _ _ (by decide)
            | exact keyAlpha_inr_of _ _ (by decide)
        · first
            | exact keyAlpha_inl_of _ _ (by decide)
            | exact keyAlpha_inr_of _ _ (by decide)
      · rcases hq with rfl | rfl | hq
        · first
            | exact keyAlpha_inl_of _ _ (by decide)
            | exact keyAlpha_inr_of _ _ (by decide)
        · first
            | exact keyAlpha_inl_of _ _ (by decide)
            | exact keyAlpha_inr_of _ _ (by decide)
        · exact ih _ (by simp only [astSize] at ha; omega) q hq
    | arrayComparison pos op arr =>
      rcases op with _ | p <;>
        simp only [keysOf, List.mem_cons, List.mem_append, List.mem_singleton,
          List.not_mem_nil, or_false, List.nil_append] at hq
      · rcases hq with rfl | hq
        · first
            | exact keyAlpha_inl_of _ _ (by decide)
            | exact keyAlpha_inr_of _ _ (by decide)
        · exact ih _ (by simp only [astSize] at ha; omega) q hq
      · rcases hq with rfl | rfl | hq
        · first
            | exact keyAlpha_inl_of _ _ (by decide)
            | exact keyAlpha_inr_of _ _ (by decide)
        · first
            | exact keyAlpha_inl_of _ _ (by decide)
            | exact keyAlpha_inr_of _ _ (by decide)
        · exact ih _ (by simp only [astSize] at ha; omega) q hq
    | array pos addr strs nums =>
      simp only [keysOf, List.mem_cons, List.mem_singleton, List.not_mem_nil, or_false] at hq
      rcases hq with rfl | rfl
      · first
          | exact keyAlpha_inl_of _ _ (by decide)
          | exact keyAlpha_inr_of _ _ (by decide)
      · first
          | exact keyAlpha_inl_of _ _ (by decide)
          | exact keyAlpha_inr_of _ _ (by decide)
    | bitOperation pos u op nx =>
      rcases op with _ | p <;> rcases nx with _ | nx2 <;>
        simp only [keysOf, List.mem_cons, List.mem_append, List.mem_singleton,
          List.not_mem_nil, or_false] at hq
      · rcases hq with rfl | hq
        · first
            | exact keyAlpha_inl_of _ _ (by decide)
            | exact keyAlpha_inr_of _ _ (by decide)
        · exact ih _ (by simp only [astSize] at ha; omega) q hq
      · rcases hq with rfl | hq | hq
        · first
            | exact keyAlpha_inl_of _ _ (by decide)
            | exact keyAlpha_inr_of _ _ (by decide)
        · exact ih _ (by simp only [astSize] at ha; omega) q hq
        · exact ih _ (by simp only [astSize] at ha; omega) q hq
      · rcases hq with rfl | hq | rfl
        · first
            | exact keyAlpha_inl_of _ _ (by decide)
            | exact keyAlpha_inr_of _ _ (by decide)
        · exact ih _ (by simp only [astSize] at ha; omega) q hq
        · first
            | exact keyAlpha_inl_of _ _ (by decide)
            | exact keyAlpha_inr_of _ _ (by decide)
      · rcases hq with rfl | (hq | rfl) | hq
        · first
            | exact keyAlpha_inl_of _ _ (by decide)
            | exact keyAlpha_inr_of _ _ (by decide)
        · exact ih _ (by simp only [astSize] at ha; omega) q hq
        · first
            | exact keyAlpha_inl_of _ _ (by decide)
            | exact keyAlpha_inr_of _ _ (by decide)
        · exact ih _ (by simp only [astSize] at ha; omega) q hq
    | unary pos op u p =>
      rcases op with _ | p2 <;> rcases u with _ | u2 <;> rcases p with _ | pr <;>
        simp only [keysOf, List.mem_cons, List.mem_append, List.mem_singleton,
          List.not_mem_nil, or_false] at hq
      · subst hq
        exact keyAlpha_inl_of _ _ (by decide)
      · rcases hq with rfl | hq
        · first
            | exact keyAlpha_inl_of _ _ (by decide)
            | exact keyAlpha_inr_of _ _ (by decide)
        · exact ih _ (by simp only [astSize] at ha; omega) q hq
      · rcases hq with rfl | hq
        · first
            | exact keyAlpha_inl_of _ _ (by decide)
            | exact keyAlpha_inr_of _ _ (by decide)
        · exact ih _ (by simp only [astSize] at ha; omega) q hq
      · rcases hq with rfl | hq | hq
        · first
            | exact keyAlpha_inl_of _ _ (by decide)
            | exact keyAlpha_inr_of _ _ (by decide)
        · exact ih _ (by simp only [astSize] at ha; omega) q hq
        · exact ih _ (by simp only [astSize] at ha; omega) q hq
      · rcases hq with rfl | rfl
        · first
            | exact keyAlpha_inl_of _ _ (by decide)
            | exact keyAlpha_inr_of _ _ (by decide)
        · first
            | exact keyAlpha_inl_of _ _ (by decide)
            | exact keyAlpha_inr_of _ _ (by decide)
      · rcases hq with rfl | rfl | hq
        · first
            | exact keyAlpha_inl_of _ _ (by decide)
            | exact keyAlpha_inr_of _ _ (by decide)
        · first
            | exact keyAlpha_inl_of _ _ (by decide)
            | exact keyAlpha_inr_of _ _ (by decide)
        · exact ih _ (by simp only [astSize] at ha; omega) q hq
      · rcases hq with rfl | rfl | hq
        · first
            | exact keyAlpha_inl_of _ _ (by decide)
            | exact keyAlpha_inr_of _ _ (by decide)
        · first
            | exact keyAlpha_inl_of _ _ (by decide)
            | exact keyAlpha_inr_of _ _ (by decide)
        · exact ih _ (by simp only [astSize] at ha; omega) q hq
      · rcases hq with rfl | rfl | hq | hq
        · first
            | exact keyAlpha_inl_of _ _ (by decide)
            | exact keyAlpha_inr_of _ _ (by decide)
        · first
            | exact keyAlpha_inl_of _ _ (by decide)
            | exact keyAlpha_inr_of _ _ (by decide)
        · exact ih _ (by simp only [astSize] at ha; omega) q hq
        · exact ih _ (by simp only [astSize] at ha; omega) q hq
    | primary pos id num str sub =>
      rcases id with _ | p1
      case some =>
        simp only [keysOf, List.mem_cons, List.mem_singleton, List.not_mem_nil, or_false] at hq
        rcases hq with rfl | rfl
        · first
            | exact keyAlpha_inl_of _ _ (by decide)
            | exact keyAlpha_inr_of _ _ (by decide)
        · first
            | exact keyAlpha_inl_of _ _ (by decide)
            | exact keyAlpha_inr_of _ _ (by decide)
      rcases num with _ | p2
      case some =>
        simp only [keysOf, List.mem_cons, List.mem_singleton, List.not_mem_nil, or_false] at hq
        rcases hq with rfl | rfl
        · first
            | exact keyAlpha_inl_of _ _ (by decide)
            | exact keyAlpha_inr_of _ _ (by decide)
        · first
            | exact keyAlpha_inl_of _ _ (by decide)
            | exact keyAlpha_inr_of _ _ (by decide)
      rcases str with _ | p3
      case some =>
        simp only [keysOf, List.mem_cons, List.mem_singleton, List.not_mem_nil, or_false] at hq
        rcases hq with rfl | rfl
        · first
            | exact keyAlpha_inl_of _ _ (by decide)
            | exact keyAlpha_inr_of _ _ (by decide)
        · first
            | exact keyAlpha_inl_of _ _ (by decide)
            | exact keyAlpha_inr_of _ _ (by decide)
      rcases sub with _ | e
      · simp only [keysOf, List.mem_singleton] at hq
        subst hq
        first
          | exact keyAlpha_inl_of _ _ (by decide)
          | exact keyAlpha_inr_of _ _ (by decide)
      · simp only [keysOf, List.mem_cons] at hq
        rcases hq with rfl | hq
        · first
            | exact keyAlpha_inl_of _ _ (by decide)
            | exact keyAlpha_inr_of _ _ (by decide)
        · exact ih _ (by simp only [astSize] at ha; omega) q hq

/-! ## The emitted identifiers are the encoded keys -/

theorem idsF_syn (f : Nat) (hf : 1 ≤ f) : ∀ (nd : node), idsF f (.syn nd) = [nd.id] := by
  intro nd
  cases f with
  | zero => omega
  | succ f2 => simp [idsF, getID, getChildren]

theorem idsF_bridge : ∀ (f : Nat) {k : Kind} (a : Ast k), nodeSize (.ast a) ≤ f →
    opsOk a = true → primariesOk a = true →
    idsF f (.ast a) = (keysOf a).map encodeKey := by
  intro f
  induction f with
  | zero =>
    intro k a ha _ _
    have := astSize_pos a
    simp only [nodeSize] at ha
    omega
  | succ f ih =>
    intro k a ha hops hprims
    cases a with
    | rule pos be =>
      simp only [nodeSize, astSize] at ha
      simp only [opsOk] at hops
      simp only [primariesOk] at hprims
      have h1 := ih be (by simp only [nodeSize]; omega) hops hprims
      simp only [idsF, getID, getChildren, List.flatMap_cons, List.flatMap_nil,
        List.append_nil, keysOf, List.map_cons, encodeKey, h1]
      simp
    | booleanExpression pos e =>
      simp only [nodeSize, astSize] at ha
      simp only [opsOk] at hops
      simp only [primariesOk] at hprims
      have h1 := ih e (by simp only [nodeSize]; omega) hops hprims
      simp only [idsF, getID, getChildren, List.flatMap_cons, List.flatMap_nil,
        List.append_nil, keysOf, List.map_cons, encodeKey, h1]
      simp
    | expression pos c op nx =>
      rcases op with _ | p <;> rcases nx with _ | nx2 <;>
        simp only [nodeSize, astSize] at ha <;>
        simp only [opsOk, Bool.and_eq_true] at hops <;>
        simp only [primariesOk, Bool.and_eq_true] at hprims
      · have h1 := ih c (by simp only [nodeSize]; omega) hops hprims
        simp only [idsF, getID, getChildren, List.flatMap_cons, List.flatMap_nil,
          List.append_nil, keysOf, List.map_cons, encodeKey, h1]
        simp
      · have h1 := ih c (by simp only [nodeSize]; omega) hops.1 hprims.1
        have h2 := ih nx2 (by simp only [nodeSize]; omega) hops.2 hprims.2
        simp only [idsF, getID, getChildren, List.flatMap_cons, List.flatMap_nil,
          List.append_nil, keysOf, List.map_cons, List.map_append, List.map_nil,
          encodeKey, h1, h2]
        simp
      · have h1 := ih c (by simp only [nodeSize]; omega) hops hprims
        simp only [idsF, getID, getChildren, opNode, List.flatMap_cons, List.flatMap_nil,
          List.append_nil, keysOf, List.map_cons, List.map_append, List.map_nil,
          encodeKey, h1, idsF_syn f (by omega)]
        simp
      · have h1 := ih c (by simp only [nodeSize]; omega) hops.1 hprims.1
        have h2 := ih nx2 (by simp only [nodeSize]; omega) hops.2 hprims.2
        simp only [idsF, getID, getChildren, opNode, List.flatMap_cons, List.flatMap_nil,
          List.append_nil, keysOf, List.map_cons, List.map_append, List.map_nil,
          encodeKey, h1, h2, idsF_syn f (by omega)]
        simp
    | comparison pos bo ac sc =>
      rcases ac with _ | ac2 <;> rcases sc with _ | sc2 <;>
        simp only [nodeSize, astSize] at ha <;>
        simp only [opsOk, Bool.and_eq_true] at hops <;>
        simp only [primariesOk, Bool.and_eq_true] at hprims
      · have h1 := ih bo (by simp only [nodeSize]; omega) hops hprims
        simp only [idsF, getID, getChildren, List.flatMap_cons, List.flatMap_nil,
          List.append_nil, keysOf, List.map_cons, encodeKey, h1]
        simp
      · have h1 := ih bo (by simp only [nodeSize]; omega) hops.1 hprims.1
        have h2 := ih sc2 (by simp only [nodeSize]; omega) hops.2 hprims.2
        simp only [idsF, getID, getChildren, List.flatMap_cons, List.flatMap_nil,
          List.append_nil, keysOf, List.map_cons, List.map_append, List.map_nil,
          encodeKey, h1, h2]
        simp
      · have h1 := ih bo (by simp only [nodeSize]; omega) hops.1 hprims.1
        have h2 := ih ac2 (by simp only [nodeSize]; omega) hops.2 hprims.2
        simp only [idsF, getID, getChildren, List.flatMap_cons, List.flatMap_nil,
          List.append_nil, keysOf, List.map_cons, List.map_append, List.map_nil,
          encodeKey, h1, h2]
        simp
      · have h1 := ih bo (by simp only [nodeSize]; omega) hops.1.1 hprims.1.1
        have h2 := ih ac2 (by simp only [nodeSize]; omega) hops.1.2 hprims.1.2
        have h3 := ih sc2 (by simp only [nodeSize]; omega) hops.2 hprims.2
        simp only [idsF, getID, getChildren, List.flatMap_cons, List.flatMap_nil,
          List.append_nil, keysOf, List.map_cons, List.map_append, List.map_nil,
          encodeKey, h1, h2, h3]
        simp
    | scalarComparison pos op nx =>
      rcases op with _ | p
      · simp [opsOk] at hops
      rcases nx with _ | bo
      · simp [opsOk] at hops
      simp only [nodeSize, astSize] at ha
      simp only [opsOk] at hops
      simp only [primariesOk] at hprims
      have h1 := ih bo (by simp only [nodeSize]; omega) hops hprims
      simp only [idsF, getID, getChildren, opNode, List.flatMap_cons, List.flatMap_nil,
        List.append_nil, keysOf, List.map_cons, List.map_append, List.map_nil,
        encodeKey, h1, idsF_syn f (by omega)]
      simp
    | arrayComparison pos op arr =>
      rcases op with _ | p
      · simp [opsOk] at hops
      simp only [nodeSize, astSize] at ha
      simp only [opsOk] at hops
      simp only [primariesOk] at hprims
      have h1 := ih arr (by simp only [nodeSize]; omega) hops hprims
      simp only [idsF, getID, getChildren, opNode, List.flatMap_cons, List.flatMap_nil,
        List.append_nil, keysOf, List.map_cons, List.map_append, List.map_nil,
        encodeKey, h1, idsF_syn f (by omega)]
      simp
    | array pos addr strs nums =>
      simp only [nodeSize, astSize] at ha
      rcases strs with _ | ⟨s, ss⟩ <;>
        simp only [idsF, getID, getChildren, List.flatMap_cons, List.flatMap_nil,
          List.append_nil, keysOf, List.map_cons, List.map_nil, encodeKey,
          idsF_syn f (by omega)] <;>
        simp
    | bitOperation pos u op nx =>
      rcases op with _ | p <;> rcases nx with _ | nx2 <;>
        simp only [nodeSize, astSize] at ha <;>
        simp only [opsOk, Bool.and_eq_true] at hops <;>
        simp only [primariesOk, Bool.and_eq_true] at hprims
      · have h1 := ih u (by simp only [nodeSize]; omega) hops hprims
        simp only [idsF, getID, getChildren, List.flatMap_cons, List.flatMap_nil,
          List.append_nil, keysOf, List.map_cons, encodeKey, h1]
        simp
      · have h1 := ih u (by simp only [nodeSize]; omega) hops.1 hprims.1
        have h2 := ih nx2 (by simp only [nodeSize]; omega) hops.2 hprims.2
        simp only [idsF, getID, getChildren, List.flatMap_cons, List.flatMap_nil,
          List.append_nil, keysOf, List.map_cons, List.map_append, List.map_nil,
          encodeKey, h1, h2]
        simp
      · have h1 := ih u (by simp only [nodeSize]; omega) hops hprims
        simp only [idsF, getID, getChildren, opNode, List.flatMap_cons, List.flatMap_nil,
          List.append_nil, keysOf, List.map_cons, List.map_append, List.map_nil,
          encodeKey, h1, idsF_syn f (by omega)]
        simp
      · have h1 := ih u (by simp only [nodeSize]; omega) hops.1 hprims.1
        have h2 := ih nx2 (by simp only [nodeSize]; omega) hops.2 hprims.2
        simp only [idsF, getID, getChildren, opNode, List.flatMap_cons, List.flatMap_nil,
          List.append_nil, keysOf, List.map_cons, List.map_append, List.map_nil,
          encodeKey, h1, h2, idsF_syn f (by omega)]
        simp
    | unary pos op u p =>
      rcases op with _ | p2 <;> rcases u with _ | u2 <;> rcases p with _ | pr <;>
        simp only [nodeSize, astSize] at ha <;>
        simp only [opsOk, Bool.and_eq_true] at hops <;>
        simp only [primariesOk, Bool.and_eq_true] at hprims
      · simp [idsF, getID, getChildren, keysOf, encodeKey]
      · have h1 := ih pr (by simp only [nodeSize]; omega) hops hprims
        simp only [idsF, getID, getChildren, List.flatMap_cons, List.flatMap_nil,
          List.append_nil, keysOf, List.map_cons, encodeKey, h1]
        simp
      · have h1 := ih u2 (by simp only [nodeSize]; omega) hops hprims
        simp only [idsF, getID, getChildren, List.flatMap_cons, List.flatMap_nil,
          List.append_nil, keysOf, List.map_cons, encodeKey, h1]
        simp
      · have h1 := ih u2 (by simp only [nodeSize]; omega) hops.1 hprims.1
        have h2 := ih pr (by simp only [nodeSize]; omega) hops.2 hprims.2
        simp only [idsF, getID, getChildren, List.flatMap_cons, List.flatMap_nil,
          List.append_nil, keysOf, List.map_cons, List.map_append, List.map_nil,
          encodeKey, h1, h2]
        simp
      · simp only [idsF, getID, getChildren, opNode, List.flatMap_cons, List.flatMap_nil,
          List.append_nil, keysOf, List.map_cons, List.map_nil, encodeKey,
          idsF_syn f (by omega)]
        simp
      · have h1 := ih pr (by simp only [nodeSize]; omega) hops hprims
        simp only [idsF, getID, getChildren, opNode, List.flatMap_cons, List.flatMap_nil,
          List.append_nil, keysOf, List.map_cons, List.map_append, List.map_nil,
          encodeKey, h1, idsF_syn f (by omega)]
        simp
      · have h1 := ih u2 (by simp only [nodeSize]; omega) hops hprims
        simp only [idsF, getID, getChildren, opNode, List.flatMap_cons, List.flatMap_nil,
          List.append_nil, keysOf, List.map_cons, List.map_append, List.map_nil,
          encodeKey, h1, idsF_syn f (by omega)]
        simp
      · have h1 := ih u2 (by simp only [nodeSize]; omega) hops.1 hprims.1
        have h2 := ih pr (by simp only [nodeSize]; omega) hops.2 hprims.2
        simp only [idsF, getID, getChildren, opNode, List.flatMap_cons, List.flatMap_nil,
          List.append_nil, keysOf, List.map_cons, List.map_append, List.map_nil,
          encodeKey, h1, h2, idsF_syn f (by omega)]
        simp
    | primary pos id num str sub =>
      rcases id with _ | p1
      case some =>
        simp only [nodeSize] at ha
        have hpos := astSize_pos (Ast.primary pos (some p1) num str sub)
        simp only [idsF, getID, getChildren, List.flatMap_cons, List.flatMap_nil,
          List.append_nil, keysOf, List.map_cons, List.map_nil, encodeKey,
          idsF_syn f (by omega)]
        simp
      rcases num with _ | p2
      case some =>
        simp only [nodeSize] at ha
        have hpos := astSize_pos (Ast.primary pos none (some p2) str sub)
        simp only [idsF, getID, getChildren, List.flatMap_cons, List.flatMap_nil,
          List.append_nil, keysOf, List.map_cons, List.map_nil, encodeKey,
          idsF_syn f (by omega)]
        simp
      rcases str with _ | p3
      case some =>
        simp only [nodeSize] at ha
        have hpos := astSize_pos (Ast.primary pos none none (some p3) sub)
        simp only [idsF, getID, getChildren, List.flatMap_cons, List.flatMap_nil,
          List.append_nil, keysOf, List.map_cons, List.map_nil, encodeKey,
          idsF_syn f (by omega)]
        simp
      rcases sub with _ | e
      · simp [primariesOk] at hprims
      · simp only [nodeSize, astSize] at ha
        simp only [opsOk] at hops
        simp only [primariesOk] at hprims
        have h1 := ih e (by simp only [nodeSize]; omega) hops hprims
        simp only [idsF, getID, getChildren, List.flatMap_cons, List.flatMap_nil,
          List.append_nil, keysOf, List.map_cons, encodeKey, h1]
        simp

set_option maxRecDepth 40000

/-! ## The claims -/

/-- Claim C1, counterexample: serializing the AST of the rule text
`a == 1` emits 13 node declarations and 12 edge declarations, not the 11
and 10 the claim states: `writeNode` also declares the two `Primary`
nodes, which the claim's node list omits. -/
theorem c1Counterexample :
    MarshalRule sinkAll ruleAEq1 ⟨"", 0⟩ = .ok ⟨docAEq1, 27⟩ ∧
    ¬(declLineCount docAEq1 = 11 ∧ edgeLineCount docAEq1 = 10) := by
  constructor
  · decide
  · decide

/-- Claim C1, amended: serializing the `a == 1` AST produces exactly the
document `docAEq1` — the 11 nodes the claim lists plus the left and right
`Primary` nodes, 13 node declarations and 12 edge declarations in all. -/
theorem c1Amended :
    MarshalRule sinkAll ruleAEq1 ⟨"", 0⟩ = .ok ⟨docAEq1, 27⟩ ∧
    declLineCount docAEq1 = 13 ∧ edgeLineCount docAEq1 = 12 := by
  refine ⟨by decide, by decide, by decide⟩

/-- Claim C2, counterexample: an `Array` holding exactly the integers 1
and 2 yields a synthetic child labeled `1, 2` (comma and space), not the
comma-joined `1,2` the claim states. -/
theorem c2Counterexample :
    getChildren (.ast (.array ⟨7⟩ 200 [] [1, 2])) =
      .ok [.syn ⟨"Array" ++ fmtPtr 200, "1, 2"⟩] ∧
    ("1, 2" : String) ≠ "1,2" := by
  constructor
  · rfl
  · decide

/-- Claim C2, amended: an `Array`'s single synthetic child is labeled
with the comma-joined string list when strings are present, and with the
comma-space-joined decimal integer list otherwise; in particular strings
`x`, `y` yield the label `x,y`. -/
theorem c2Amended :
    (∀ pos addr s ss nums, getChildren (.ast (.array pos addr (s :: ss) nums)) =
        .ok [.syn ⟨"Array" ++ fmtPtr addr, joinStrings (s :: ss)⟩]) ∧
    (∀ pos addr nums, getChildren (.ast (.array pos addr [] nums)) =
        .ok [.syn ⟨"Array" ++ fmtPtr addr, joinNumbers nums⟩]) ∧
    joinStrings ["x", "y"] = "x,y" ∧ joinNumbers [1, 2] = "1, 2" := by
  refine ⟨fun pos addr s ss nums => rfl, fun pos addr nums => rfl, by decide, by decide⟩

/-- Claim C3: for a well-formed rule AST (operators and operands present,
every primary populated) and a sink accepting every write, `MarshalRule`
succeeds and the emitted document is `digraph {` newline, a body, and a
closing `}` line. -/
theorem c3WellFormedSuccess (sink : Nat → Bool) (r : Ast .rule) (st : St)
    (hsink : ∀ i, sink i = true) (hops : opsOk r = true) (hprims : primariesOk r = true) :
    ∃ body c2, MarshalRule ⟨sink⟩ r st =
      .ok ⟨st.out ++ "digraph \x7b\n" ++ body ++ "\x7d\n", c2⟩ :=
  MarshalRule_ok ⟨sink⟩ hsink r st hops hprims

/-- Claim C3, witness at the `a == 1` AST. -/
theorem c3Witness :
    opsOk ruleAEq1 = true ∧ primariesOk ruleAEq1 = true ∧
    ∃ body c2, MarshalRule ⟨fun _ => true⟩ ruleAEq1 ⟨"", 0⟩ =
      .ok ⟨"" ++ "digraph \x7b\n" ++ body ++ "\x7d\n", c2⟩ :=
  ⟨by decide, by decide,
    c3WellFormedSuccess (fun _ => true) ruleAEq1 ⟨"", 0⟩ (fun i => rfl) (by decide) (by decide)⟩

/-- Claim C4: an AST whose traversal meets a `Primary` with none of its
four alternatives populated makes serialization fail with the
`empty ast.Primary` error, for every initial sink state — regardless of
how much output was already written — as long as the sink accepts writes
and no nil-operator crash happens first. -/
theorem c4EmptyPrimaryFails (sink : Nat → Bool) (r : Ast .rule) (st : St)
    (hsink : ∀ i, sink i = true) (hops : opsOk r = true)
    (hprims : primariesOk r = false) :
    MarshalRule ⟨sink⟩ r st = .err .emptyPrimary :=
  MarshalRule_emptyPrimary ⟨sink⟩ hsink r st hops hprims

/-- Claim C4, witness: a rule whose only primary is empty, serialized into
a sink that already received three writes. -/
theorem c4Witness :
    opsOk ruleEmptyPrimary = true ∧ primariesOk ruleEmptyPrimary = false ∧
    MarshalRule ⟨fun _ => true⟩ ruleEmptyPrimary ⟨"partial output", 3⟩ = .err .emptyPrimary :=
  ⟨by decide, by decide,
    c4EmptyPrimaryFails (fun _ => true) ruleEmptyPrimary ⟨"partial output", 3⟩
      (fun i => rfl) (by decide) (by decide)⟩

/-- Claim C5: a value outside the closed variant set reaching the
traversal is rejected with the `unsupported node type` error, by `getID`,
by `getChildren`, and by `writeNode` itself. -/
theorem c5UnsupportedNode (tn : String) (f : Nat) (d : Marshaler) (st : St) :
    getID (.other tn) = .err (.unsupportedNode tn) ∧
    getChildren (.other tn) = .err (.unsupportedNode tn) ∧
    writeNodeF (f + 1) d (.other tn) st = .err (.unsupportedNode tn) := by
  refine ⟨rfl, rfl, ?_⟩
  simp [writeNodeF, getID]

/-- Claim C6: every original AST node's declaration uses the identifier
`variant-kind-name ++ decimal(offset)` and the bare variant-kind name as
its label; e.g. a `Comparison` at offset 17 is declared as
`Comparison17[label="Comparison"]`. -/
theorem c6OriginalIdsAndLabels :
    (∀ pos be, getID (.ast (.rule pos be)) = .ok ("Rule" ++ decStr pos.offset) ∧
      getLabel (.ast (.rule pos be)) = "Rule") ∧
    (∀ pos e, getID (.ast (.booleanExpression pos e)) =
        .ok ("BooleanExpression" ++ decStr pos.offset) ∧
      getLabel (.ast (.booleanExpression pos e)) = "BooleanExpression") ∧
    (∀ pos c op nx, getID (.ast (.expression pos c op nx)) =
        .ok ("Expression" ++ decStr pos.offset) ∧
      getLabel (.ast (.expression pos c op nx)) = "Expression") ∧
    (∀ pos bo ac sc, getID (.ast (.comparison pos bo ac sc)) =
        .ok ("Comparison" ++ decStr pos.offset) ∧
      getLabel (.ast (.comparison pos bo ac sc)) = "Comparison") ∧
    (∀ pos op nx, getID (.ast (.scalarComparison pos op nx)) =
        .ok ("ScalarComparison" ++ decStr pos.offset) ∧
      getLabel (.ast (.scalarComparison pos op nx)) = "ScalarComparison") ∧
    (∀ pos op arr, getID (.ast (.arrayComparison pos op arr)) =
        .ok ("ArrayComparison" ++ decStr pos.offset) ∧
      getLabel (.ast (.arrayComparison pos op arr)) = "ArrayComparison") ∧
    (∀ pos addr strs nums, getID (.ast (.array pos addr strs nums)) =
        .ok ("Array" ++ decStr pos.offset) ∧
      getLabel (.ast (.array pos addr strs nums)) = "Array") ∧
    (∀ pos u op nx, getID (.ast (.bitOperation pos u op nx)) =
        .ok ("BitOperation" ++ decStr pos.offset) ∧
      getLabel (.ast (.bitOperation pos u op nx)) = "BitOperation") ∧
    (∀ pos op u p, getID (.ast (.unary pos op u p)) = .ok ("Unary" ++ decStr pos.offset) ∧
      getLabel (.ast (.unary pos op u p)) = "Unary") ∧
    (∀ pos id num str sub, getID (.ast (.primary pos id num str sub)) =
        .ok ("Primary" ++ decStr pos.offset) ∧
      getLabel (.ast (.primary pos id num str sub)) = "Primary") ∧
    (∀ bo ac sc, getID (.ast (.comparison ⟨17⟩ bo ac sc)) = .ok "Comparison17") := by
  refine ⟨fun _ _ => ⟨rfl, rfl⟩, fun _ _ => ⟨rfl, rfl⟩, fun _ _ _ _ => ⟨rfl, rfl⟩,
    fun _ _ _ _ => ⟨rfl, rfl⟩, fun _ _ _ => ⟨rfl, rfl⟩, fun _ _ _ => ⟨rfl, rfl⟩,
    fun _ _ _ _ => ⟨rfl, rfl⟩, fun _ _ _ _ => ⟨rfl, rfl⟩, fun _ _ _ _ => ⟨rfl, rfl⟩,
    fun _ _ _ _ _ => ⟨rfl, rfl⟩, fun _ _ _ => rfl⟩

/-- Claim C7: serialization is deterministic — the same AST serialized
into any two sinks that accept all writes produces identical results,
byte-identical output included. -/
theorem c7Deterministic (s1 s2 : Nat → Bool) (h1 : ∀ i, s1 i = true)
    (h2 : ∀ i, s2 i = true) (r : Ast .rule) (st : St) :
    MarshalRule ⟨s1⟩ r st = MarshalRule ⟨s2⟩ r st :=
  MarshalRule_sink_eq s1 s2 h1 h2 r st

/-- Claim C7, witness: two syntactically different all-accepting sinks. -/
theorem c7Witness :
    MarshalRule ⟨fun _ => true⟩ ruleAEq1 ⟨"", 0⟩ =
      MarshalRule ⟨fun i => i == i⟩ ruleAEq1 ⟨"", 0⟩ :=
  c7Deterministic (fun _ => true) (fun i => i == i) (fun i => rfl)
    (fun i => by simp) ruleAEq1 ⟨"", 0⟩

/-- Claim C8: under the precondition that the (variant-kind, offset)
pairs of the original nodes are pairwise distinct, and modelling the Go
runtime guarantee that distinct live pointer cells have distinct
addresses, the identifiers of all node declarations the traversal emits
are pairwise distinct; in particular two synthetic operator nodes built
from different operator instances get different identifiers even when
their textual symbols agree. -/
theorem c8IdsNodup (r : Ast .rule) (hops : opsOk r = true) (hprims : primariesOk r = true)
    (horig : (ruleOrigPairs r).Nodup) (haddr : (ruleSynAddrs r).Nodup) :
    (ruleIds r).Nodup ∧
    ∀ a1 a2 : Nat, a1 ≠ a2 → ("Op" ++ fmtPtr a1) ≠ ("Op" ++ fmtPtr a2) := by
  constructor
  · have hbridge : ruleIds r = (keysOf (ruleBE r)).map encodeKey :=
      idsF_bridge _ (ruleBE r) (le_refl _) (opsOk_ruleBE r hops)
        (primariesOk_ruleBE r hprims)
    rw [hbridge]
    refine List.Nodup.map_on ?_ (nodup_keys _ horig haddr)
    intro x hx y hy hxy
    exact encodeKey_inj x y (keysOf_alpha _ (ruleBE r) (le_refl _) x hx)
      (keysOf_alpha _ (ruleBE r) (le_refl _) y hy) hxy
  · intro a1 a2 hne heq
    have hk := encodeKey_inj (.inr ("Op", a1)) (.inr ("Op", a2))
      (keyAlpha_inr_of _ _ (by decide)) (keyAlpha_inr_of _ _ (by decide)) heq
    exact hne (congrArg Prod.snd (Sum.inr.inj hk))

/-- Claim C8, witness at the `a == 1` AST. -/
theorem c8Witness :
    opsOk ruleAEq1 = true ∧ primariesOk ruleAEq1 = true ∧
    (ruleOrigPairs ruleAEq1).Nodup ∧ (ruleSynAddrs ruleAEq1).Nodup ∧
    ((ruleIds ruleAEq1).Nodup ∧
      ∀ a1 a2 : Nat, a1 ≠ a2 → ("Op" ++ fmtPtr a1) ≠ ("Op" ++ fmtPtr a2)) :=
  ⟨by decide, by decide, by decide, by decide,
    c8IdsNodup ruleAEq1 (by decide) (by decide) (by decide) (by decide)⟩

/-- Claim C9: the traversal dereferences `ArrayComparison.Op`,
`ScalarComparison.Op` and `ScalarComparison.Next` without nil checks;
when every such field is populated (`opsOk`) no crash is reachable, and
an AST violating the precondition in any of the three ways crashes the
serializer instead of returning one of the three defined errors. -/
theorem c9NilOpSafety :
    (∀ (d : Marshaler) (r : Ast .rule) (st : St), opsOk r = true →
      MarshalRule d r st ≠ .panic) ∧
    MarshalRule sinkAll ruleNilScalarOp ⟨"", 0⟩ = .panic ∧
    MarshalRule sinkAll ruleNilScalarNext ⟨"", 0⟩ = .panic ∧
    MarshalRule sinkAll ruleNilArrayOp ⟨"", 0⟩ = .panic := by
  refine ⟨fun d r st hops => MarshalRule_no_panic d r st hops, by decide, by decide, by decide⟩

/-- Claim C9, witness: the safety half applied to a well-formed AST. -/
theorem c9Witness :
    opsOk ruleAEq1 = true ∧ MarshalRule sinkAll ruleAEq1 ⟨"", 0⟩ ≠ .panic :=
  ⟨by decide, c9NilOpSafety.1 sinkAll ruleAEq1 ⟨"", 0⟩ (by decide)⟩

/-- Claim C10: the serializer does not defend the `Array` invariants: a
non-empty string list wins even when the integer list is also populated,
and an `Array` with both lists empty serializes without failure into a
synthetic child labeled with the empty string. -/
theorem c10ArrayNoDefense :
    (∀ pos addr s ss nums, getChildren (.ast (.array pos addr (s :: ss) nums)) =
        .ok [.syn ⟨"Array" ++ fmtPtr addr, joinStrings (s :: ss)⟩]) ∧
    (∀ pos addr, getChildren (.ast (.array pos addr [] [])) =
        .ok [.syn ⟨"Array" ++ fmtPtr addr, ""⟩]) := by
  exact ⟨fun pos addr s ss nums => rfl, fun pos addr => rfl⟩
